import Mathlib

/-!
The govh `ip` package: address-range utility and API facade.

A shallow embedding of `src/ip/type.go` and `src/ip/ip.go`.

* Go strings and byte slices are lists of bytes, each byte a `Nat` below 256;
  byte arithmetic that can wrap is written with an explicit `% 256`.
* A nil slice is the empty list.
* The `for` loop of `IPBlock.GetIPs` has no bound in the source, so its embedding
  takes a fuel argument and returns `none` when the fuel runs out before the
  loop condition fails.
* The functions of Go's standard library that the package calls (`net.ParseCIDR`,
  `net.IP.Mask`, `net.IPNet.Contains`, `net.IP.String`, `url.QueryEscape`,
  `strings.Join`, `json.Marshal`) are embedded from the sources of Go 1.23.
* The authenticated transport (`govh.OVHClient`) and `json.Unmarshal` are
  collaborators, passed as arguments; every facade function returns, next to its
  Go results, the list of requests it handed to the transport.
-/

namespace Govh

/-! ## Strings and errors -/

/-- A Go string: a sequence of bytes. -/
abbrev GoString := List Nat

/-- The bytes of an ASCII literal of the source. -/
def str (s : String) : GoString := s.toList.map Char.toNat

/-- Every element of the list is a byte. -/
def isBytes (b : List Nat) : Prop := ∀ x ∈ b, x < 256

instance (b : List Nat) : Decidable (isBytes b) := by
  unfold isBytes
  infer_instance

/-- Go `error` values that the package produces or passes on. -/
inductive Error where
  /-- The `*net.ParseError` with fields `Type` and `Text`. -/
  | ParseError (typ text : GoString)
  /-- An error made of a message: `errors.New`, `fmt.Errorf`, or an error of a collaborator. -/
  | errorString (msg : GoString)
  /-- The error for a response whose status is not among the expected ones. -/
  | StatusError (status : Nat) (body : GoString)
  deriving DecidableEq, Repr

/-! ## `src/ip/type.go`: `inc` -/

/-- The loop of `inc`; the counter is `j + 1`, so `0` is the exit `j < 0`. -/
def inc.loop (ip : List Nat) : Nat → List Nat
  | 0 => ip
  | j + 1 =>
    -- ip[j]++
    let ip := ip.set j ((ip.getD j 0 + 1) % 256)
    -- if ip[j] > 0 { break }
    if ip.getD j 0 > 0 then ip else inc.loop ip j

/-- The function `inc(ip net.IP)`: the slice after the in-place update. -/
def inc (ip : List Nat) : List Nat := inc.loop ip ip.length

/-- The big-endian unsigned integer a byte sequence denotes. -/
def beVal (b : List Nat) : Nat := b.foldl (fun acc x => acc * 256 + x) 0

/-! ## Go `net`: addresses, masks, networks -/

/-- The type `net.IP`, a byte slice. -/
abbrev IP := List Nat

/-- The type `net.IPMask`, a byte slice. -/
abbrev IPMask := List Nat

/-- The type `net.IPNet`. -/
structure IPNet where
  IP : IP
  Mask : IPMask
  deriving DecidableEq, Repr

/-- The constant `net.IPv4len`. -/
def IPv4len : Nat := 4

/-- The constant `net.IPv6len`. -/
def IPv6len : Nat := 16

/-- The variable `v4InV6Prefix` of package `net`. -/
def v4InV6Prefix : List Nat := [0, 0, 0, 0, 0, 0, 0, 0, 0, 0, 0xff, 0xff]

/-- The helper `allFF` of package `net`. -/
def allFF (b : List Nat) : Bool := b.all (fun c => c == 0xff)

/-- The helper `isZeros` of package `net`. -/
def isZeros (p : List Nat) : Bool := p.all (fun c => c == 0)

/-- The loop of `net.CIDRMask`: `k` bytes remain to be written, `n` one-bits remain. -/
def CIDRMask.loop : Nat → Nat → IPMask
  | 0, _ => []
  | k + 1, n =>
    if n ≥ 8 then 0xff :: CIDRMask.loop k (n - 8)
    else (0xff ^^^ (0xff >>> n)) :: CIDRMask.loop k 0

/-- The function `net.CIDRMask(ones, bits)`. -/
def CIDRMask (ones bits : Nat) : IPMask :=
  if bits ≠ 8 * IPv4len ∧ bits ≠ 8 * IPv6len then []
  else if ones > bits then []
  else CIDRMask.loop (bits / 8) ones

/-- The method `net.IP.To4`. -/
def IP.To4 (ip : IP) : IP :=
  if ip.length = IPv4len then ip
  else if ip.length = IPv6len ∧ isZeros (ip.take 10) = true ∧
      ip.getD 10 0 = 0xff ∧ ip.getD 11 0 = 0xff then (ip.drop 12).take 4
  else []

/-- The method `net.IP.Mask`. -/
def IP.Mask (ip : IP) (mask : IPMask) : IP :=
  let mask :=
    if mask.length = IPv6len ∧ ip.length = IPv4len ∧ allFF (mask.take 12) = true
    then mask.drop 12 else mask
  let ip :=
    if mask.length = IPv4len ∧ ip.length = IPv6len ∧ ip.take 12 = v4InV6Prefix
    then ip.drop 12 else ip
  let n := ip.length
  if n ≠ mask.length then []
  else List.zipWith (fun a b => a &&& b) ip mask

/-- The helper `networkNumberAndMask` of package `net`. -/
def networkNumberAndMask (n : IPNet) : IP × IPMask :=
  let ip4 := IP.To4 n.IP
  if ip4 = [] ∧ n.IP.length ≠ IPv6len then ([], [])
  else
    let ip := if ip4 = [] then n.IP else ip4
    if n.Mask.length = IPv4len then
      if ip.length ≠ IPv4len then ([], []) else (ip, n.Mask)
    else if n.Mask.length = IPv6len then
      if ip.length = IPv4len then (ip, n.Mask.drop 12) else (ip, n.Mask)
    else ([], [])

/-- The method `net.IPNet.Contains`. -/
def IPNet.Contains (n : IPNet) (ip : Govh.IP) : Bool :=
  let nn := (networkNumberAndMask n).1
  let m := (networkNumberAndMask n).2
  let ip := if IP.To4 ip ≠ [] then IP.To4 ip else ip
  let l := ip.length
  if l ≠ nn.length then false
  else (List.range l).all
    (fun i => nn.getD i 0 &&& m.getD i 0 == ip.getD i 0 &&& m.getD i 0)

/-! ## Go `net`: rendering an address -/

/-- The digit table `"0123456789abcdef"` of `net/netip`. -/
def digits : GoString := str "0123456789abcdef"

/-- The helper `appendDecimal` of `net/netip`, for one byte. -/
def appendDecimal (b : GoString) (x : Nat) : GoString :=
  let b := if x ≥ 100 then b ++ [digits.getD (x / 100) 0] else b
  let b := if x ≥ 10 then b ++ [digits.getD (x / 10 % 10) 0] else b
  b ++ [digits.getD (x % 10) 0]

/-- The helper `appendHex` of `net/netip`, for one 16-bit group. -/
def appendHex (b : GoString) (x : Nat) : GoString :=
  let b := if x ≥ 0x1000 then b ++ [digits.getD (x >>> 12) 0] else b
  let b := if x ≥ 0x100 then b ++ [digits.getD (x >>> 8 &&& 0xf) 0] else b
  let b := if x ≥ 0x10 then b ++ [digits.getD (x >>> 4 &&& 0xf) 0] else b
  b ++ [digits.getD (x &&& 0xf) 0]

/-- Dotted-decimal rendering of a four-byte address (`netip.Addr.string4`). -/
def string4 (ip : IP) : GoString :=
  let b := appendDecimal [] (ip.getD 0 0)
  let b := appendDecimal (b ++ str ".") (ip.getD 1 0)
  let b := appendDecimal (b ++ str ".") (ip.getD 2 0)
  appendDecimal (b ++ str ".") (ip.getD 3 0)

/-- The `i`-th 16-bit group of a sixteen-byte address (`netip.Addr.v6u16`). -/
def v6u16 (ip : IP) (i : Nat) : Nat := ip.getD (2 * i) 0 * 256 + ip.getD (2 * i + 1) 0

/-- The inner loop `for j < 8 && ip.v6u16(j) == 0 { j++ }`; `k` bounds the steps. -/
def zeroRun (ip : IP) : Nat → Nat → Nat
  | 0, j => j
  | k + 1, j => if j < 8 ∧ v6u16 ip j = 0 then zeroRun ip k (j + 1) else j

/-- The first loop of `netip.Addr.string6`: the longest run of zero groups, as
`(zeroStart, zeroEnd)`, both 255 when there is none of length two. -/
def zeroSpan (ip : IP) : Nat → Nat → Nat × Nat → Nat × Nat
  | 0, _, z => z
  | k + 1, i, z =>
    let j := zeroRun ip 8 i
    let l := j - i
    let z := if l ≥ 2 ∧ l > z.2 - z.1 then (i, j) else z
    zeroSpan ip k (i + 1) z

/-- The second loop of `netip.Addr.string6`; `k` bounds the steps. -/
def string6.loop (ip : IP) (zeroStart zeroEnd : Nat) : Nat → Nat → GoString → GoString
  | 0, _, ret => ret
  | k + 1, i, ret =>
    if i ≥ 8 then ret
    else if i = zeroStart then
      let ret := ret ++ str "::"
      let i := zeroEnd
      if i ≥ 8 then ret
      else string6.loop ip zeroStart zeroEnd k (i + 1) (appendHex ret (v6u16 ip i))
    else
      let ret := if i > 0 then ret ++ str ":" else ret
      string6.loop ip zeroStart zeroEnd k (i + 1) (appendHex ret (v6u16 ip i))

/-- Rendering of a sixteen-byte address without zone (`netip.Addr.string6`). -/
def string6 (ip : IP) : GoString :=
  let z := zeroSpan ip 8 0 (255, 255)
  string6.loop ip z.1 z.2 8 0 []

/-- The helper `hexString` of package `net`. -/
def hexString (b : List Nat) : GoString :=
  b.flatMap (fun tn => [digits.getD (tn >>> 4) 0, digits.getD (tn &&& 0xf) 0])

/-- The method `net.IP.String`. -/
def IP.String (ip : IP) : GoString :=
  if ip.length = 0 then str "<nil>"
  else if ip.length ≠ IPv4len ∧ ip.length ≠ IPv6len then str "?" ++ hexString ip
  else if (IP.To4 ip).length = IPv4len then string4 (IP.To4 ip)
  else string6 ip

/-! ## Go `net` and `net/netip`: parsing -/

/-- The function `bytealg.IndexByteString`; `none` stands for `-1`. -/
def IndexByteString : GoString → Nat → Option Nat
  | [], _ => none
  | b :: rest, c => if b = c then some 0 else (IndexByteString rest c).map (fun i => i + 1)

/-- The constant `big` of package `net`. -/
def big : Nat := 0xFFFFFF

/-- The loop of `dtoi`, on the bytes not yet read; `n` and `i` are the loop variables.
The result is `(n, i, ok)`. -/
def dtoi.loop : GoString → Nat → Nat → Nat × Nat × Bool
  | [], n, i => if i = 0 then (0, 0, false) else (n, i, true)
  | c :: rest, n, i =>
    if 48 ≤ c ∧ c ≤ 57 then
      let n := n * 10 + (c - 48)
      if n ≥ big then (big, i, false) else dtoi.loop rest n (i + 1)
    else if i = 0 then (0, 0, false) else (n, i, true)

/-- The function `dtoi` of package `net`: decimal to integer, `(n, i, ok)`. -/
def dtoi (s : GoString) : Nat × Nat × Bool := dtoi.loop s 0 0

/-- The loop of `parseIPv4Fields` over `s = in[off:end]`; `k` is `len(s) - i`.
An error is `none`: `net.ParseCIDR` replaces every such error by its own. -/
def parseIPv4Fields.loop (s : GoString) :
    Nat → Nat → Nat → Nat → Nat → List Nat → Option (List Nat)
  | 0, _, val, pos, _, fields =>
    if pos < 3 then none else some (fields.set 3 (val % 256))
  | k + 1, i, val, pos, digLen, fields =>
    let c := s.getD i 0
    if 48 ≤ c ∧ c ≤ 57 then
      if digLen = 1 ∧ val = 0 then none
      else
        let val := val * 10 + c - 48
        let digLen := digLen + 1
        if val > 255 then none
        else parseIPv4Fields.loop s k (i + 1) val pos digLen fields
    else if c = 46 then
      if i = 0 ∨ i = s.length - 1 ∨ s.getD (i - 1) 0 = 46 then none
      else if pos = 3 then none
      else parseIPv4Fields.loop s k (i + 1) 0 (pos + 1) 0 (fields.set pos (val % 256))
    else none

/-- The function `parseIPv4Fields` of `net/netip`, on the substring it is given;
the result is the four fields. -/
def parseIPv4Fields (s : GoString) : Option (List Nat) :=
  parseIPv4Fields.loop s s.length 0 0 0 0 [0, 0, 0, 0]

/-- The value of a hexadecimal digit, `none` for any other byte. -/
def hexVal (c : Nat) : Option Nat :=
  if 48 ≤ c ∧ c ≤ 57 then some (c - 48)
  else if 97 ≤ c ∧ c ≤ 102 then some (c - 97 + 10)
  else if 65 ≤ c ∧ c ≤ 70 then some (c - 65 + 10)
  else none

/-- The inner loop of `parseIPv6` reading one hexadecimal group: `some (off, acc)`,
or `none` for a group of more than four digits or a value above `0xffff`. -/
def parseIPv6.hex : GoString → Nat → Nat → Option (Nat × Nat)
  | [], off, acc => some (off, acc)
  | c :: rest, off, acc =>
    match hexVal c with
    | none => some (off, acc)
    | some d =>
      let acc := (acc <<< 4) + d
      if off > 3 then none
      else if acc > 0xffff then none
      else parseIPv6.hex rest (off + 1) acc

/-- The loop `for i < 16` of `parseIPv6`; `k` bounds the iterations. The result is
the state after the loop: the unread text, `i`, the bytes and the ellipsis position. -/
def parseIPv6.loop :
    Nat → GoString → Nat → List Nat → Option Nat → Option (GoString × Nat × List Nat × Option Nat)
  | 0, s, i, ip, ellipsis => some (s, i, ip, ellipsis)
  | k + 1, s, i, ip, ellipsis =>
    if ¬ i < 16 then some (s, i, ip, ellipsis)
    else
      match parseIPv6.hex s 0 0 with
      | none => none
      | some (off, acc) =>
        if off = 0 then none
        else if off < s.length ∧ s.getD off 0 = 46 then
          -- a trailing dotted IPv4 part
          if ellipsis = none ∧ i ≠ 12 then none
          else if i + 4 > 16 then none
          else
            match parseIPv4Fields s with
            | none => none
            | some f => some ([], i + 4, ip.take i ++ f ++ ip.drop (i + 4), ellipsis)
        else
          let ip := (ip.set i ((acc >>> 8) % 256)).set (i + 1) (acc % 256)
          let i := i + 2
          let s := s.drop off
          if s.length = 0 then some (s, i, ip, ellipsis)
          else if s.getD 0 0 ≠ 58 then none
          else if s.length = 1 then none
          else
            let s := s.drop 1
            if s.getD 0 0 = 58 then
              if ellipsis ≠ none then none
              else
                let s := s.drop 1
                if s.length = 0 then some (s, i, ip, some i)
                else parseIPv6.loop k s i ip (some i)
            else parseIPv6.loop k s i ip ellipsis

/-- The function `parseIPv6` of `net/netip`: the sixteen bytes and the zone. -/
def parseIPv6 (text : GoString) : Option (List Nat × GoString) :=
  -- the zone is split off first
  let split : Option (GoString × GoString) :=
    match IndexByteString text 37 with
    | none => some (text, [])
    | some i => if text.drop (i + 1) = [] then none else some (text.take i, text.drop (i + 1))
  match split with
  | none => none
  | some (s, zone) =>
    let ip0 := List.replicate 16 0
    let lead := s.length ≥ 2 ∧ s.getD 0 0 = 58 ∧ s.getD 1 0 = 58
    let s1 := if lead then s.drop 2 else s
    if lead ∧ s1.length = 0 then some (ip0, zone)
    else
      match parseIPv6.loop 8 s1 0 ip0 (if lead then some 0 else none) with
      | none => none
      | some (rest, i, ip, ellipsis) =>
        if rest.length ≠ 0 then none
        else if i < 16 then
          match ellipsis with
          | none => none
          | some e =>
            -- the bytes from the ellipsis on move to the end, zeros fill the gap
            some (ip.take e ++ List.replicate (16 - i) 0 ++ (ip.drop e).take (i - e), zone)
        else if ellipsis ≠ none then none
        else some (ip, zone)

/-- The type `netip.Addr`: a four-byte address, or a sixteen-byte one with its zone. -/
inductive Addr where
  | v4 (b : List Nat)
  | v6 (b : List Nat) (zone : GoString)
  deriving DecidableEq, Repr

/-- The method `netip.Addr.BitLen`. -/
def Addr.BitLen : Addr → Nat
  | .v4 _ => 32
  | .v6 _ _ => 128

/-- The method `netip.Addr.Zone`. -/
def Addr.Zone : Addr → GoString
  | .v4 _ => []
  | .v6 _ zone => zone

/-- The method `netip.Addr.As16`. -/
def Addr.As16 : Addr → List Nat
  | .v4 b => v4InV6Prefix ++ b
  | .v6 b _ => b

/-- The function `netip.ParseAddr`: the first of `.`, `:` and `%` in the text picks
the parser. An error is `none`. -/
def ParseAddr.scan (s : GoString) : GoString → Option Addr
  | [] => none
  | c :: rest =>
    if c = 46 then (parseIPv4Fields s).map Addr.v4
    else if c = 58 then (parseIPv6 s).map (fun r => Addr.v6 r.1 r.2)
    else if c = 37 then none
    else ParseAddr.scan s rest

/-- The function `netip.ParseAddr`. -/
def ParseAddr (s : GoString) : Option Addr := ParseAddr.scan s s

/-- The function `net.ParseCIDR`: the address and the network, or the error. -/
def ParseCIDR (s : GoString) : Except Error (IP × IPNet) :=
  let parseError := Error.ParseError (str "CIDR address") s
  match IndexByteString s 47 with
  | none => .error parseError
  | some i =>
    let addr := s.take i
    let mask := s.drop (i + 1)
    match ParseAddr addr with
    | none => .error parseError
    | some ipAddr =>
      if ipAddr.Zone ≠ [] then .error parseError
      else
        let r := dtoi mask
        if r.2.2 = false ∨ r.2.1 ≠ mask.length ∨ r.1 > ipAddr.BitLen then .error parseError
        else
          let m := CIDRMask r.1 ipAddr.BitLen
          let addr16 := ipAddr.As16
          .ok (addr16, { IP := IP.Mask addr16 m, Mask := m })

/-! ## `src/ip/type.go`: `IPBlock.GetIPs` -/

/-- The type `IPBlock`, a string. -/
abbrev IPBlock := GoString

/-- The `for` loop of `IPBlock.GetIPs`: `ip` is the loop variable, `IPs` the result so far.
`none` when the fuel is used up before `ipNet.Contains(ip)` fails. -/
def IPBlock.GetIPs.loop (ipNet : IPNet) : Nat → IP → List GoString → Option (List GoString)
  | 0, _, _ => none
  | fuel + 1, ip, IPs =>
    if ipNet.Contains ip = true then
      IPBlock.GetIPs.loop ipNet fuel (inc ip) (IPs ++ [IP.String ip])
    else some IPs

/-- The method `IPBlock.GetIPs`: `(IPs, err)`, or `none` when the loop is still
running after `fuel` tests of its condition. -/
def IPBlock.GetIPs (fuel : Nat) (i : IPBlock) : Option (List GoString × Option Error) :=
  match ParseCIDR i with
  | .error err => some ([], some err)
  | .ok (ip, ipNet) =>
    (IPBlock.GetIPs.loop ipNet fuel (IP.Mask ip ipNet.Mask) []).map (fun IPs => (IPs, none))

/-! ## Go `net/url` and `strings` -/

/-- The table `upperhex` of `net/url`. -/
def upperhex : GoString := str "0123456789ABCDEF"

/-- The function `shouldEscape(c, encodeQueryComponent)` of `net/url`. -/
def shouldEscape (c : Nat) : Bool :=
  -- unreserved characters (alphanum)
  if (97 ≤ c ∧ c ≤ 122) ∨ (65 ≤ c ∧ c ≤ 90) ∨ (48 ≤ c ∧ c ≤ 57) then false
  -- unreserved characters (mark): - _ . ~
  else if c = 45 ∨ c = 95 ∨ c = 46 ∨ c = 126 then false
  -- reserved characters are escaped in a query component, and so is everything else
  else true

/-- The second loop of `escape(s, encodeQueryComponent)`: the output for one byte. -/
def escapeByte (c : Nat) : GoString :=
  if c = 32 then [43]
  else if shouldEscape c = true then [37, upperhex.getD (c >>> 4) 0, upperhex.getD (c &&& 15) 0]
  else [c]

/-- The function `escape(s, encodeQueryComponent)` of `net/url`: the string itself
when the counting pass finds nothing to escape, else the rewritten bytes. -/
def escape (s : GoString) : GoString :=
  let spaceCount := (s.filter (fun c => shouldEscape c && c == 32)).length
  let hexCount := (s.filter (fun c => shouldEscape c && !(c == 32))).length
  if spaceCount = 0 ∧ hexCount = 0 then s
  else s.flatMap escapeByte

/-- The function `url.QueryEscape`. -/
def QueryEscape (s : GoString) : GoString := escape s

/-- The type `[]string`. -/
abbrev StringSlice := List GoString

/-- The function `strings.Join`. -/
def Join : StringSlice → GoString → GoString
  | [], _ => []
  | [e], _ => e
  | e :: rest, sep => e ++ rest.flatMap (fun x => sep ++ x)

/-! ## Go `unicode/utf8` and `encoding/json`: serialising a struct of strings -/

/-- The constant `utf8.RuneError`. -/
def RuneError : Nat := 0xFFFD

/-- The table `first` of `unicode/utf8`, by ranges of the first byte. -/
def first (b : Nat) : Nat :=
  if b < 0x80 then 0xF0
  else if b < 0xC2 then 0xF1
  else if b < 0xE0 then 0x02
  else if b = 0xE0 then 0x13
  else if b < 0xED then 0x03
  else if b = 0xED then 0x23
  else if b < 0xF0 then 0x03
  else if b = 0xF0 then 0x34
  else if b < 0xF4 then 0x04
  else if b = 0xF4 then 0x44
  else 0xF1

/-- The table `acceptRanges` of `unicode/utf8`: `(lo, hi)` for the second byte. -/
def acceptRanges (i : Nat) : Nat × Nat :=
  match i with
  | 0 => (0x80, 0xBF)
  | 1 => (0xA0, 0xBF)
  | 2 => (0x80, 0x9F)
  | 3 => (0x90, 0xBF)
  | 4 => (0x80, 0x8F)
  | _ => (0, 0)

/-- The function `utf8.DecodeRuneInString`: `(rune, size)`. -/
def DecodeRuneInString (s : GoString) : Nat × Nat :=
  let n := s.length
  if n < 1 then (RuneError, 0)
  else
    let s0 := s.getD 0 0
    let x := first s0
    if x ≥ 0xF0 then (if x % 2 = 0 then s0 else RuneError, 1)
    else
      let sz := x &&& 7
      let accept := acceptRanges (x >>> 4)
      if n < sz then (RuneError, 1)
      else
        let s1 := s.getD 1 0
        if s1 < accept.1 ∨ accept.2 < s1 then (RuneError, 1)
        else if sz ≤ 2 then (((s0 &&& 0x1F) <<< 6) ||| (s1 &&& 0x3F), 2)
        else
          let s2 := s.getD 2 0
          if s2 < 0x80 ∨ 0xBF < s2 then (RuneError, 1)
          else if sz ≤ 3 then
            (((s0 &&& 0x0F) <<< 12) ||| ((s1 &&& 0x3F) <<< 6) ||| (s2 &&& 0x3F), 3)
          else
            let s3 := s.getD 3 0
            if s3 < 0x80 ∨ 0xBF < s3 then (RuneError, 1)
            else
              (((s0 &&& 0x07) <<< 18) ||| ((s1 &&& 0x3F) <<< 12) ||| ((s2 &&& 0x3F) <<< 6)
                ||| (s3 &&& 0x3F), 4)

/-- The table `htmlSafeSet` of `encoding/json`: the ASCII bytes written unescaped. -/
def htmlSafeSet (b : Nat) : Bool :=
  decide (0x20 ≤ b ∧ b < 0x80 ∧ b ≠ 34 ∧ b ≠ 38 ∧ b ≠ 60 ∧ b ≠ 62 ∧ b ≠ 92)

/-- The table `hex` of `encoding/json`. -/
def hex : GoString := str "0123456789abcdef"

/-- The loop of `appendString(dst, src, true)` of `encoding/json`, on the bytes of
`src` not yet read; `k` bounds the steps. Bytes that need no escape are copied. -/
def appendString.loop : Nat → GoString → GoString → GoString
  | 0, _, dst => dst
  | _ + 1, [], dst => dst
  | k + 1, b :: rest, dst =>
    if b < 0x80 then
      if htmlSafeSet b = true then appendString.loop k rest (dst ++ [b])
      else if b = 92 ∨ b = 34 then appendString.loop k rest (dst ++ [92, b])
      else if b = 8 then appendString.loop k rest (dst ++ str "\\b")
      else if b = 12 then appendString.loop k rest (dst ++ str "\\f")
      else if b = 10 then appendString.loop k rest (dst ++ str "\\n")
      else if b = 13 then appendString.loop k rest (dst ++ str "\\r")
      else if b = 9 then appendString.loop k rest (dst ++ str "\\t")
      else
        appendString.loop k rest
          (dst ++ str "\\u00" ++ [hex.getD (b >>> 4) 0, hex.getD (b &&& 0xF) 0])
    else
      let r := DecodeRuneInString ((b :: rest).take 4)
      if r.1 = RuneError ∧ r.2 = 1 then appendString.loop k rest (dst ++ str "\\ufffd")
      else if r.1 = 0x2028 ∨ r.1 = 0x2029 then
        appendString.loop k ((b :: rest).drop r.2) (dst ++ str "\\u202" ++ [hex.getD (r.1 &&& 0xF) 0])
      else appendString.loop k ((b :: rest).drop r.2) (dst ++ (b :: rest).take r.2)

/-- The function `appendString(dst, src, true)` of `encoding/json`: the JSON string
literal of `src`, appended to `dst`. -/
def appendString (dst src : GoString) : GoString :=
  appendString.loop src.length src (dst ++ str "\"") ++ str "\""

/-- A string field of a struct as `json.Marshal` sees it: the name of its tag, the
`omitempty` option and the value. -/
structure Field where
  name : GoString
  omitempty : Bool
  value : GoString
  deriving DecidableEq, Repr

/-- The function `json.Marshal` on a struct whose fields are strings: an object with one
member for each field in declaration order, a field with `omitempty` and the empty
string left out. It has no error for such a struct. -/
def Marshal (fields : List Field) : Except Error GoString :=
  let kept := fields.filter (fun f => !(f.omitempty && f.value.length == 0))
  let members := kept.map (fun f => appendString (str "\"" ++ f.name ++ str "\":") f.value)
  .ok (str "\x7b" ++ Join members (str ",") ++ str "\x7d")

/-! ## `src/ip/type.go`: the records of the facade -/

/-- The struct `IpUpdatableProperties`. -/
structure IpUpdatableProperties where
  Description : GoString
  deriving DecidableEq, Repr

/-- The json tags of `IpUpdatableProperties`. -/
def IpUpdatableProperties.fields (p : IpUpdatableProperties) : List Field :=
  [{ name := str "description", omitempty := true, value := p.Description }]

/-- The struct `ReverseIP`. -/
structure ReverseIP where
  IPReverse : GoString
  Reverse : GoString
  deriving DecidableEq, Repr

/-- The json tags of `ReverseIP`. -/
def ReverseIP.fields (r : ReverseIP) : List Field :=
  [{ name := str "ipReverse", omitempty := false, value := r.IPReverse },
   { name := str "reverse", omitempty := false, value := r.Reverse }]

/-- The method `ReverseIP.String`: `fmt.Sprintf("%s %s", r.IPReverse, r.Reverse)`. -/
def ReverseIP.String (r : ReverseIP) : GoString := r.IPReverse ++ str " " ++ r.Reverse

/-! ## The collaborators of the facade -/

/-- A request handed to the transport. -/
inductive Request where
  | GET (path : GoString)
  | POST (path body : GoString)
  | PUT (path body : GoString)
  deriving DecidableEq, Repr

/-- The path of a request. -/
def Request.path : Request → GoString
  | .GET path => path
  | .POST path _ => path
  | .PUT path _ => path

/-- The body of a request, empty for GET. -/
def Request.body : Request → GoString
  | .GET _ => []
  | .POST _ body => body
  | .PUT _ body => body

/-- Modelled from the spec: the answer of the transport of section 6, a body and a
status (`govh.Response`, whose source is not in `src/`). -/
structure Response where
  Body : GoString
  StatusCode : Nat
  deriving DecidableEq, Repr

/-- Modelled from the spec: the transport of section 6 (`govh.OVHClient`, whose source is
not in `src/`), one exchange for each request: the response and the error. -/
structure OVHClient where
  Do : Request → Response × Option Error

/-- Modelled from the spec: `GET(path)` of the transport. -/
def OVHClient.GET (c : OVHClient) (path : GoString) : Response × Option Error :=
  c.Do (Request.GET path)

/-- Modelled from the spec: `POST(path, body)` of the transport. -/
def OVHClient.POST (c : OVHClient) (path body : GoString) : Response × Option Error :=
  c.Do (Request.POST path body)

/-- Modelled from the spec: `PUT(path, body)` of the transport. -/
def OVHClient.PUT (c : OVHClient) (path body : GoString) : Response × Option Error :=
  c.Do (Request.PUT path body)

/-- The function `json.Unmarshal` for the two targets of the facade, each starting
from its zero value: the decoded value and the error. -/
structure Decoder where
  IPBlocks : GoString → List IPBlock × Option Error
  ReverseIP : GoString → ReverseIP × Option Error

/-! ## `src/ip/ip.go`: the facade -/

/-- The result of a facade function: the requests handed to the transport, in order,
and the Go results. -/
structure Outcome (α : Type) where
  requests : List Request
  result : α

/-- The method `Client.List`: `(ips, err)`. -/
def Client.List (c : OVHClient) (d : Decoder)
    (filterDesc filterIP filterRoutedTo filterType : GoString) :
    Outcome (List IPBlock × Option Error) :=
  let uri := str "ip"
  let args : StringSlice := []
  let args := if filterDesc.length > 0
    then args ++ [str "description=" ++ QueryEscape filterDesc] else args
  let args := if filterIP.length > 0
    then args ++ [str "ip=" ++ QueryEscape filterIP] else args
  let args := if filterRoutedTo.length > 0
    then args ++ [str "routedTo.serviceName=" ++ QueryEscape filterRoutedTo] else args
  let args := if filterType.length > 0
    then args ++ [str "type=" ++ QueryEscape filterType] else args
  let uri := if args.length > 0 then uri ++ str "?" ++ Join args (str "&") else uri
  let r := c.GET uri
  match r.2 with
  | some err => { requests := [Request.GET uri], result := ([], some err) }
  | none => { requests := [Request.GET uri], result := d.IPBlocks r.1.Body }

/-- The method `Client.GetReverse`: `(reverse, err)`. -/
def Client.GetReverse (c : OVHClient) (d : Decoder) (IP : GoString) :
    Outcome (GoString × Option Error) :=
  let uri := str "ip/" ++ QueryEscape (IP ++ str "/32") ++ str "/reverse/" ++ QueryEscape IP
  let r := c.GET uri
  match r.2 with
  | some err => { requests := [Request.GET uri], result := ([], some err) }
  | none =>
    let u := d.ReverseIP r.1.Body
    { requests := [Request.GET uri], result := (u.1.Reverse, u.2) }

/-- The message of the error of `Client.SetReverse` for an echo that does not match. -/
def mismatchMessage (IP reverse : GoString) (RIP : ReverseIP) : GoString :=
  str "returned reverseIP doesn" ++ [39] ++ str "t match reverseIP expected. Expected: " ++
    IP ++ str " " ++ reverse ++ str " got " ++ RIP.String

/-- The method `Client.SetReverse`: the error. -/
def Client.SetReverse (c : OVHClient) (d : Decoder) (IP reverse : GoString) :
    Outcome (Option Error) :=
  match Marshal (ReverseIP.fields { IPReverse := IP, Reverse := reverse }) with
  | .error err => { requests := [], result := some err }
  | .ok payload =>
    let uri := str "ip/" ++ QueryEscape (IP ++ str "/32") ++ str "/reverse"
    let r := c.POST uri payload
    match r.2 with
    | some err => { requests := [Request.POST uri payload], result := some err }
    | none =>
      let u := d.ReverseIP r.1.Body
      match u.2 with
      | some err => { requests := [Request.POST uri payload], result := some err }
      | none =>
        let RIP := u.1
        if RIP.IPReverse ≠ IP ∨ RIP.Reverse ≠ reverse ++ str "." then
          { requests := [Request.POST uri payload],
            result := some (Error.errorString (mismatchMessage IP reverse RIP)) }
        else { requests := [Request.POST uri payload], result := none }

/-! ## Notions of the specification, and collaborators for the examples -/

/-- The four bytes of a 32-bit value, most significant first. -/
def bytes4 (v : Nat) : List Nat := [v / 2 ^ 24 % 256, v / 2 ^ 16 % 256, v / 2 ^ 8 % 256, v % 256]

/-- The query parameters of a block listing as the specification words them: for each
filter that is not empty, in the order description, ip, routedTo.serviceName, type, the
entry `key=escaped value`. -/
def listParams (description ip routedTo type : GoString) : List GoString :=
  ([(str "description", description), (str "ip", ip),
    (str "routedTo.serviceName", routedTo), (str "type", type)].filter
      (fun kv => !(kv.2 == []))).map (fun kv => kv.1 ++ str "=" ++ QueryEscape kv.2)

/-- The request path of a block listing as the specification words it: `ip` when every
filter is empty, else `ip?` and the entries separated by a single `&`. -/
def listPath (description ip routedTo type : GoString) : GoString :=
  if description = [] ∧ ip = [] ∧ routedTo = [] ∧ type = [] then str "ip"
  else str "ip?" ++ (str "&").intercalate (listParams description ip routedTo type)

/-- The number of filters that are not empty. -/
def filterCount (description ip routedTo type : GoString) : Nat :=
  ([description, ip, routedTo, type].filter (fun v => !(v == []))).length

/-- A transport for examples: it answers every request with status 200 and `body`. -/
def replyWith (body : GoString) : OVHClient :=
  { Do := fun _ => ({ Body := body, StatusCode := 200 }, none) }

/-- A decoder for examples: it decodes every body into the record `r`, without error. -/
def decodeAs (r : ReverseIP) : Decoder :=
  { IPBlocks := fun _ => ([], none), ReverseIP := fun _ => (r, none) }

/-- The path the claim names for the reverse record of an address: the single-host block
`a/32`, then the `reverse` sub-resource keyed by `a`. -/
def reverseKeyPath (a : GoString) : GoString :=
  str "ip/" ++ QueryEscape (a ++ str "/32") ++ str "/reverse/" ++ QueryEscape a

/-- The path of the `reverse` sub-resource of the single-host block `a/32`, without a key. -/
def reverseCollectionPath (a : GoString) : GoString :=
  str "ip/" ++ QueryEscape (a ++ str "/32") ++ str "/reverse"

/-- The 32-bit value `v` with its low `32 - p` bits cleared. -/
def network4 (v p : Nat) : Nat := v / 2 ^ (32 - p) * 2 ^ (32 - p)

/-- The decimal numeral of a number, as bytes. -/
def decimal (n : Nat) : GoString := (Nat.toDigits 10 n).map Char.toNat

/-- The dotted-decimal rendering of a 32-bit value: its four bytes, most significant
first, as decimal numerals separated by dots. -/
def dottedDecimal (v : Nat) : GoString :=
  decimal (v / 2 ^ 24 % 256) ++ str "." ++ decimal (v / 2 ^ 16 % 256) ++ str "." ++
    decimal (v / 2 ^ 8 % 256) ++ str "." ++ decimal (v % 256)

/-- A decimal number as the specification means it: at least one byte, every byte a
decimal digit. -/
def isDecimal (m : GoString) : Prop := m ≠ [] ∧ ∀ c ∈ m, 48 ≤ c ∧ c ≤ 57

instance (m : GoString) : Decidable (isDecimal m) := by
  unfold isDecimal
  infer_instance

/-- The value of a string of decimal digits. -/
def decimalValue (m : GoString) : Nat := m.foldl (fun n c => n * 10 + (c - 48)) 0

/-- A valid CIDR expression as the specification means it: there is a `/` separator,
the part before the first `/` parses as an address (without zone), and the part after
it is a decimal number within the address width. -/
def ValidCIDR (s : GoString) : Prop :=
  ∃ i ∈ IndexByteString s 47, ∃ a ∈ ParseAddr (s.take i),
    a.Zone = [] ∧ isDecimal (s.drop (i + 1)) ∧ decimalValue (s.drop (i + 1)) ≤ a.BitLen

instance (s : GoString) : Decidable (ValidCIDR s) :=
  inferInstanceAs (Decidable (∃ i ∈ IndexByteString s 47, ∃ a ∈ ParseAddr (s.take i),
    a.Zone = [] ∧ isDecimal (s.drop (i + 1)) ∧ decimalValue (s.drop (i + 1)) ≤ a.BitLen))

/-- The dotted-decimal text of the address `a.b.c.d`. -/
def dottedQuad (a b c d : Nat) : GoString :=
  decimal a ++ 46 :: (decimal b ++ 46 :: (decimal c ++ 46 :: decimal d))

/-- The CIDR string `a.b.c.d/p`, every number in decimal without leading zeros. -/
def cidr4 (a b c d p : Nat) : GoString := dottedQuad a b c d ++ 47 :: decimal p

/-! ## Theorems: `inc` -/

theorem beVal_append_singleton (pre : List Nat) (x : Nat) :
    beVal (pre ++ [x]) = beVal pre * 256 + x := by
  simp [beVal, List.foldl_append]

theorem inc_loop_append (suf : List Nat) :
    ∀ (j : Nat) (pre : List Nat), j ≤ pre.length →
      inc.loop (pre ++ suf) j = inc.loop pre j ++ suf := by
  intro j
  induction j with
  | zero => intro pre _; simp [inc.loop]
  | succ j ih =>
    intro pre hj
    have hlt : j < pre.length := hj
    have hset : ∀ v, (pre ++ suf).set j v = pre.set j v ++ suf := by
      intro v; exact List.set_append_left _ _ hlt
    have hget : (pre ++ suf).getD j 0 = pre.getD j 0 := by
      simp [List.getD_eq_getElem?_getD, List.getElem?_append_left hlt]
    have hget2 : ∀ v, (pre.set j v ++ suf).getD j 0 = (pre.set j v).getD j 0 := by
      intro v
      have : j < (pre.set j v).length := by simpa using hlt
      simp [List.getD_eq_getElem?_getD, List.getElem?_append_left this]
    simp only [inc.loop, hset, hget, hget2]
    split
    · rfl
    · exact ih _ (by simp; omega)

theorem inc_append_singleton (pre : List Nat) (x : Nat) :
    inc (pre ++ [x]) =
      if (x + 1) % 256 > 0 then pre ++ [(x + 1) % 256] else inc pre ++ [(x + 1) % 256] := by
  have hset : ∀ v, (pre ++ [x]).set pre.length v = pre ++ [v] := by
    intro v; simp
  have hget : ∀ v, (pre ++ [v]).getD pre.length 0 = v := by
    intro v; simp [List.getD_eq_getElem?_getD]
  simp only [inc, List.length_append, List.length_singleton, inc.loop, hset, hget]
  split
  · rfl
  · exact inc_loop_append _ _ _ (le_refl _)

theorem inc_length (b : List Nat) : (inc b).length = b.length := by
  induction b using List.reverseRecOn with
  | nil => rfl
  | append_singleton pre x ih =>
    rw [inc_append_singleton]
    split <;> simp [ih]

theorem inc_isBytes (b : List Nat) (hb : isBytes b) : isBytes (inc b) := by
  induction b using List.reverseRecOn with
  | nil => exact hb
  | append_singleton pre x ih =>
    have hpre : isBytes pre := fun y hy => hb y (by simp [hy])
    rw [inc_append_singleton]
    split
    · intro y hy
      rcases List.mem_append.mp hy with h | h
      · exact hpre y h
      · simp at h; omega
    · intro y hy
      rcases List.mem_append.mp hy with h | h
      · exact ih hpre y h
      · simp at h; omega

theorem beVal_lt (b : List Nat) (hb : isBytes b) : beVal b < 256 ^ b.length := by
  induction b using List.reverseRecOn with
  | nil => simp [beVal]
  | append_singleton pre x ih =>
    have hpre : isBytes pre := fun y hy => hb y (by simp [hy])
    have hx : x < 256 := hb x (by simp)
    have := ih hpre
    rw [beVal_append_singleton, List.length_append, List.length_singleton, pow_succ]
    nlinarith

theorem inc_beVal (b : List Nat) (hb : isBytes b) :
    beVal (inc b) = (beVal b + 1) % 256 ^ b.length := by
  induction b using List.reverseRecOn with
  | nil => simp [inc, inc.loop, beVal]
  | append_singleton pre x ih =>
    have hpre : isBytes pre := fun y hy => hb y (by simp [hy])
    have hx : x < 256 := hb x (by simp)
    have hlt := beVal_lt pre hpre
    have ih' := ih hpre
    rw [inc_append_singleton, beVal_append_singleton, List.length_append,
      List.length_singleton, pow_succ]
    split
    · rename_i h
      have hx' : x + 1 < 256 := by omega
      rw [beVal_append_singleton, Nat.mod_eq_of_lt hx', Nat.mod_eq_of_lt (by nlinarith)]
      ring
    · rename_i h
      have hx' : x = 255 := by omega
      subst hx'
      rw [beVal_append_singleton, ih']
      have e : beVal pre * 256 + 255 + 1 = (beVal pre + 1) * 256 := by ring
      rw [e, Nat.mul_mod_mul_right]
      simp

theorem inc_replicate_ff (n : Nat) : inc (List.replicate n 255) = List.replicate n 0 := by
  induction n with
  | zero => rfl
  | succ n ih =>
    rw [List.replicate_succ', inc_append_singleton, ih]
    simp [List.replicate_succ']

theorem inc_carry (pre : List Nat) (x k : Nat) (hx : x < 255) :
    inc (pre ++ x :: List.replicate k 255) = pre ++ (x + 1) :: List.replicate k 0 := by
  induction k with
  | zero =>
    have h1 : (x + 1) % 256 = x + 1 := Nat.mod_eq_of_lt (by omega)
    simp [inc_append_singleton, h1]
  | succ k ih =>
    have e : pre ++ x :: List.replicate (k + 1) 255
        = (pre ++ x :: List.replicate k 255) ++ [255] := by
      simp [List.replicate_succ']
    rw [e, inc_append_singleton, ih]
    simp [List.replicate_succ']

/-- C7: for every byte sequence `b` of length `n`, `inc b` keeps the length and stays a
byte sequence; read as a big-endian unsigned integer it is `(value b + 1) mod 256^n`; the
last byte that is not 255 is incremented, the 255 bytes after it become 0 and the bytes
before it are unchanged; and the all-0xFF sequence becomes all zeros. -/
theorem inc_is_big_endian_successor (b : List Nat) (hb : isBytes b) :
    (inc b).length = b.length ∧ isBytes (inc b) ∧
    beVal (inc b) = (beVal b + 1) % 256 ^ b.length ∧
    (∀ pre x k, b = pre ++ x :: List.replicate k 255 → x < 255 →
      inc b = pre ++ (x + 1) :: List.replicate k 0) ∧
    (∀ n, b = List.replicate n 255 → inc b = List.replicate n 0) :=
  ⟨inc_length b, inc_isBytes b hb, inc_beVal b hb,
    fun pre x k e hx => e ▸ inc_carry pre x k hx,
    fun n e => e ▸ inc_replicate_ff n⟩

/-- C7 at `192.168.255.255` and at `255.255.255.255`. -/
theorem inc_is_big_endian_successor_witness :
    isBytes [192, 168, 255, 255] ∧ inc [192, 168, 255, 255] = [192, 169, 0, 0] ∧
    inc [255, 255, 255, 255] = [0, 0, 0, 0] ∧
    beVal (inc [192, 168, 255, 255]) = (beVal [192, 168, 255, 255] + 1) % 256 ^ 4 :=
  ⟨by decide, by decide, by decide,
    (inc_is_big_endian_successor [192, 168, 255, 255] (by decide)).2.2.1⟩

/-! ## Theorems: the request path of `Client.List` -/

theorem List_requests_eq (c : OVHClient) (d : Decoder) (fd fi fr ft : GoString) :
    (Client.List c d fd fi fr ft).requests = [Request.GET (listPath fd fi fr ft)] := by
  unfold Client.List
  have key : ∀ uri : GoString, uri = listPath fd fi fr ft →
      (match (c.GET uri).2 with
        | some err => ({ requests := [Request.GET uri], result := ([], some err) } :
            Outcome (List IPBlock × Option Error))
        | none => { requests := [Request.GET uri], result := d.IPBlocks (c.GET uri).1.Body }).requests
        = [Request.GET (listPath fd fi fr ft)] := by
    intro uri h
    subst h
    split <;> rfl
  apply key
  rcases fd with _ | ⟨a, fd⟩ <;> rcases fi with _ | ⟨b, fi⟩ <;> rcases fr with _ | ⟨e, fr⟩ <;>
    rcases ft with _ | ⟨f, ft⟩ <;>
    simp [listPath, listParams, Join, List.intercalate, List.intersperse] <;> rfl

/-- C3: the path `Client.List` passes to GET is `ip` when the four filters are empty, and
otherwise `ip?` followed by `key=QueryEscape(value)` for each non-empty filter, in the
order description, ip, routedTo.serviceName, type, separated by a single `&`; a type
filter `vps` alone gives `ip?type=vps`, and with a description before it
`ip?description=<escaped>&type=vps`. -/
theorem List_request_path (c : OVHClient) (d : Decoder) (fd fi fr ft : GoString) :
    (Client.List c d fd fi fr ft).requests = [Request.GET (listPath fd fi fr ft)] ∧
    (Client.List c d [] [] [] (str "vps")).requests = [Request.GET (str "ip?type=vps")] ∧
    (Client.List c d fd [] [] (str "vps")).requests =
      [Request.GET (if fd = [] then str "ip?type=vps"
        else str "ip?description=" ++ QueryEscape fd ++ str "&type=vps")] := by
  have hvps : QueryEscape (str "vps") = str "vps" := by decide
  refine ⟨List_requests_eq c d fd fi fr ft, ?_, ?_⟩
  · rw [List_requests_eq]
    simp only [listPath, listParams, hvps]
    decide
  · rw [List_requests_eq]
    rcases fd with _ | ⟨a, fd⟩
    · simp only [listPath, listParams, hvps]
      decide
    · simp [listPath, listParams, hvps, List.intercalate, List.intersperse]
      rfl

/-! ## Theorems: the alphabet of `url.QueryEscape` -/

theorem upperhex_getD_ne (i : Nat) :
    upperhex.getD i 0 ≠ 61 ∧ upperhex.getD i 0 ≠ 38 ∧ upperhex.getD i 0 ≠ 63 := by
  by_cases h : i < 16
  · interval_cases i <;> decide
  · have hl : upperhex.length ≤ i := by
      have : upperhex.length = 16 := by decide
      omega
    rw [List.getD_eq_default _ _ hl]
    decide

theorem shouldEscape_false_ne (c : Nat) (h : shouldEscape c = false) :
    c ≠ 61 ∧ c ≠ 38 ∧ c ≠ 63 := by
  refine ⟨?_, ?_, ?_⟩ <;> (intro e; subst e; revert h; decide)

theorem escapeByte_ne (c x : Nat) (hx : x ∈ escapeByte c) : x ≠ 61 ∧ x ≠ 38 ∧ x ≠ 63 := by
  unfold escapeByte at hx
  split at hx
  · simp at hx; subst hx; decide
  · split at hx
    · simp at hx
      rcases hx with h | h | h
      · subst h; decide
      · rw [h, ← List.getD_eq_getElem?_getD]; exact upperhex_getD_ne _
      · rw [h, ← List.getD_eq_getElem?_getD]; exact upperhex_getD_ne _
    · rename_i h1 h2
      simp at hx
      subst hx
      exact shouldEscape_false_ne x (by simpa using h2)

theorem QueryEscape_ne (s : GoString) (x : Nat) (hx : x ∈ QueryEscape s) :
    x ≠ 61 ∧ x ≠ 38 ∧ x ≠ 63 := by
  unfold QueryEscape escape at hx
  simp only at hx
  split at hx
  · rename_i h
    obtain ⟨h1, h2⟩ := h
    rw [List.length_eq_zero, List.filter_eq_nil_iff] at h1 h2
    have hs : shouldEscape x = false := by
      have a1 := h1 x hx
      have a2 := h2 x hx
      cases hse : shouldEscape x
      · rfl
      · simp [hse] at a1 a2
        exact absurd a2 a1
    exact shouldEscape_false_ne x hs
  · rcases List.mem_flatMap.mp hx with ⟨c, _, hc⟩
    exact escapeByte_ne c x hc

theorem QueryEscape_count (s : GoString) :
    (QueryEscape s).count 61 = 0 ∧ (QueryEscape s).count 38 = 0 ∧
      (QueryEscape s).count 63 = 0 := by
  refine ⟨?_, ?_, ?_⟩ <;> rw [List.count_eq_zero] <;> intro h
  · exact (QueryEscape_ne s _ h).1 rfl
  · exact (QueryEscape_ne s _ h).2.1 rfl
  · exact (QueryEscape_ne s _ h).2.2 rfl

/-- C10: whatever bytes the four filters hold, the path `Client.List` passes to GET has
exactly `k` bytes `=`, `k - 1` bytes `&` (none when `k = 0`) and `min 1 k` bytes `?`,
where `k` is the number of non-empty filters; and `url.QueryEscape` emits none of the
bytes `=`, `&` and `?`, whatever its argument. -/
theorem List_path_separator_counts (c : OVHClient) (d : Decoder) (fd fi fr ft : GoString) :
    (∃ path, (Client.List c d fd fi fr ft).requests = [Request.GET path] ∧
      path.count 61 = filterCount fd fi fr ft ∧
      path.count 38 = filterCount fd fi fr ft - 1 ∧
      path.count 63 = min 1 (filterCount fd fi fr ft)) ∧
    (∀ (v : GoString) (x : Nat), x ∈ QueryEscape v → x ≠ 61 ∧ x ≠ 38 ∧ x ≠ 63) := by
  refine ⟨⟨listPath fd fi fr ft, List_requests_eq c d fd fi fr ft, ?_⟩, QueryEscape_ne⟩
  have h1 := fun s => (QueryEscape_count s).1
  have h2 := fun s => (QueryEscape_count s).2.1
  have h3 := fun s => (QueryEscape_count s).2.2
  have e1 : (str "ip?").count 61 = 0 ∧ (str "ip?").count 38 = 0 ∧ (str "ip?").count 63 = 1 := by
    decide
  have e2 : (str "description").count 61 = 0 ∧ (str "description").count 38 = 0 ∧
      (str "description").count 63 = 0 := by decide
  have e3 : (str "ip").count 61 = 0 ∧ (str "ip").count 38 = 0 ∧ (str "ip").count 63 = 0 := by
    decide
  have e4 : (str "routedTo.serviceName").count 61 = 0 ∧
      (str "routedTo.serviceName").count 38 = 0 ∧
      (str "routedTo.serviceName").count 63 = 0 := by decide
  have e5 : (str "type").count 61 = 0 ∧ (str "type").count 38 = 0 ∧
      (str "type").count 63 = 0 := by decide
  have e6 : (str "=").count 61 = 1 ∧ (str "=").count 38 = 0 ∧ (str "=").count 63 = 0 := by
    decide
  have e7 : (str "&").count 61 = 0 ∧ (str "&").count 38 = 1 ∧ (str "&").count 63 = 0 := by
    decide
  rcases fd with _ | ⟨a, fd⟩ <;> rcases fi with _ | ⟨b, fi⟩ <;> rcases fr with _ | ⟨e, fr⟩ <;>
    rcases ft with _ | ⟨f, ft⟩ <;>
    simp [listPath, listParams, filterCount, List.intercalate, List.intersperse,
      List.count_append, h1, h2, h3, e1, e2, e3, e4, e5, e6, e7]

/-! ## Theorems: the body of `Client.UpdateBlockProperties` -/

theorem Marshal_ReverseIP (IP reverse : GoString) :
    Marshal (ReverseIP.fields { IPReverse := IP, Reverse := reverse }) =
      .ok (str "\x7b" ++ appendString (str "\"ipReverse\":") IP ++ str "," ++
        appendString (str "\"reverse\":") reverse ++ str "\x7d") := by
  simp [Marshal, ReverseIP.fields, Join]
  rfl

theorem GetReverse_requests (c : OVHClient) (d : Decoder) (a : GoString) :
    (Client.GetReverse c d a).requests = [Request.GET (reverseKeyPath a)] := by
  unfold Client.GetReverse reverseKeyPath
  simp only
  split <;> rfl

theorem SetReverse_requests (c : OVHClient) (d : Decoder) (a reverse : GoString) :
    (Client.SetReverse c d a reverse).requests =
      [Request.POST (reverseCollectionPath a)
        (str "\x7b" ++ appendString (str "\"ipReverse\":") a ++ str "," ++
          appendString (str "\"reverse\":") reverse ++ str "\x7d")] := by
  unfold Client.SetReverse reverseCollectionPath
  rw [Marshal_ReverseIP]
  simp only
  split
  · rfl
  · split
    · rfl
    · split <;> rfl

/-- C4, as the code has it: for every address `a`, `Client.GetReverse` sends one GET to
`ip/` ++ QueryEscape(a ++ `/32`) ++ `/reverse/` ++ QueryEscape(a), and `Client.SetReverse`
sends one POST to `ip/` ++ QueryEscape(a ++ `/32`) ++ `/reverse`, without a key segment,
the address being the `ipReverse` member of the body; for `198.51.100.9` the block segment
is `198.51.100.9%2F32`. -/
theorem reverse_request_paths (c : OVHClient) (d : Decoder) (a reverse : GoString) :
    (Client.GetReverse c d a).requests =
      [Request.GET (str "ip/" ++ QueryEscape (a ++ str "/32") ++ str "/reverse/" ++
        QueryEscape a)] ∧
    (Client.SetReverse c d a reverse).requests =
      [Request.POST (str "ip/" ++ QueryEscape (a ++ str "/32") ++ str "/reverse")
        (str "\x7b" ++ appendString (str "\"ipReverse\":") a ++ str "," ++
          appendString (str "\"reverse\":") reverse ++ str "\x7d")] ∧
    QueryEscape (str "198.51.100.9" ++ str "/32") = str "198.51.100.9%2F32" ∧
    QueryEscape (str "198.51.100.9") = str "198.51.100.9" :=
  ⟨GetReverse_requests c d a, SetReverse_requests c d a reverse, by decide, by decide⟩

/-- C4 fails for `Client.SetReverse`: for the address `198.51.100.9` its one request goes
to `ip/198.51.100.9%2F32/reverse`, which is not the path with the key segment
`/198.51.100.9` that the claim names. -/
theorem SetReverse_path_has_no_key_segment :
    (Client.SetReverse (replyWith []) (decodeAs { IPReverse := [], Reverse := [] })
        (str "198.51.100.9") (str "host.example.com")).requests.map Request.path =
      [str "ip/198.51.100.9%2F32/reverse"] ∧
    reverseKeyPath (str "198.51.100.9") = str "ip/198.51.100.9%2F32/reverse/198.51.100.9" ∧
    ¬ (Client.SetReverse (replyWith []) (decodeAs { IPReverse := [], Reverse := [] })
        (str "198.51.100.9") (str "host.example.com")).requests.map Request.path =
      [reverseKeyPath (str "198.51.100.9")] := by
  refine ⟨?_, ?_, ?_⟩ <;> decide

/-- C2: when the payload is marshalled, the POST succeeds and the response body decodes
into the record `echoed`, `Client.SetReverse` returns nil if and only if
`echoed.IPReverse` is the address and `echoed.Reverse` is the reverse name with one `.`
appended; in every other case it returns the mismatch error. -/
theorem SetReverse_nil_iff_echo_matches (c : OVHClient) (d : Decoder)
    (IP reverse payload : GoString) (r : Response) (echoed : ReverseIP)
    (hmarshal : Marshal (ReverseIP.fields { IPReverse := IP, Reverse := reverse }) = .ok payload)
    (hpost : c.POST (str "ip/" ++ QueryEscape (IP ++ str "/32") ++ str "/reverse") payload
      = (r, none))
    (hdecode : d.ReverseIP r.Body = (echoed, none)) :
    ((Client.SetReverse c d IP reverse).result = none ↔
      echoed.IPReverse = IP ∧ echoed.Reverse = reverse ++ str ".") ∧
    (¬ (echoed.IPReverse = IP ∧ echoed.Reverse = reverse ++ str ".") →
      (Client.SetReverse c d IP reverse).result =
        some (Error.errorString (mismatchMessage IP reverse echoed))) := by
  unfold Client.SetReverse
  rw [hmarshal]
  simp only [hpost, hdecode]
  by_cases h : echoed.IPReverse = IP ∧ echoed.Reverse = reverse ++ str "."
  · have h' : ¬ (echoed.IPReverse ≠ IP ∨ echoed.Reverse ≠ reverse ++ str ".") := by
      rintro (h1 | h1)
      · exact h1 h.1
      · exact h1 h.2
    rw [if_neg h']
    simp [h]
  · have h' : echoed.IPReverse ≠ IP ∨ echoed.Reverse ≠ reverse ++ str "." := by
      by_contra hn
      push_neg at hn
      exact h hn
    rw [if_pos h']
    simp [h]

/-- C2 at the address `203.0.113.5` with the reverse name `host.example.com`: the echo
with the trailing dot gives nil; the echoes without the dot, with two dots, with another
host and with another address give the mismatch error. -/
theorem SetReverse_nil_iff_echo_matches_witness :
    (Client.SetReverse (replyWith [])
        (decodeAs { IPReverse := str "203.0.113.5", Reverse := str "host.example.com." })
        (str "203.0.113.5") (str "host.example.com")).result = none ∧
    (Client.SetReverse (replyWith [])
        (decodeAs { IPReverse := str "203.0.113.5", Reverse := str "host.example.com" })
        (str "203.0.113.5") (str "host.example.com")).result ≠ none ∧
    (Client.SetReverse (replyWith [])
        (decodeAs { IPReverse := str "203.0.113.5", Reverse := str "host.example.com.." })
        (str "203.0.113.5") (str "host.example.com")).result ≠ none ∧
    (Client.SetReverse (replyWith [])
        (decodeAs { IPReverse := str "203.0.113.5", Reverse := str "other.example.com." })
        (str "203.0.113.5") (str "host.example.com")).result ≠ none ∧
    (Client.SetReverse (replyWith [])
        (decodeAs { IPReverse := str "203.0.113.6", Reverse := str "host.example.com." })
        (str "203.0.113.5") (str "host.example.com")).result =
      some (Error.errorString (str ("returned reverseIP doesn" ++ "\x27" ++
        "t match reverseIP expected. Expected: 203.0.113.5 host.example.com got " ++
        "203.0.113.6 host.example.com."))) :=
  ⟨((SetReverse_nil_iff_echo_matches (replyWith [])
      (decodeAs { IPReverse := str "203.0.113.5", Reverse := str "host.example.com." })
      (str "203.0.113.5") (str "host.example.com")
      (str "\x7b\"ipReverse\":\"203.0.113.5\",\"reverse\":\"host.example.com\"\x7d")
      { Body := [], StatusCode := 200 }
      { IPReverse := str "203.0.113.5", Reverse := str "host.example.com." }
      rfl rfl rfl).1).2 ⟨rfl, by decide⟩,
    by decide, by decide, by decide, by decide⟩

/-! ## Theorems: masks and containment for four-byte addresses -/

set_option maxRecDepth 100000 in
theorem and_mask_byte : ∀ (k : Fin 9) (a : Fin 256),
    a.val &&& (0xff ^^^ (0xff >>> k.val)) = a.val / 2 ^ (8 - k.val) * 2 ^ (8 - k.val) := by
  decide

theorem and_128 (a : Nat) (h : a < 256) : a &&& 128 = a / 128 * 128 := by
  have := and_mask_byte ⟨1, by omega⟩ ⟨a, h⟩
  simp only [Fin.val_mk] at this
  norm_num at this
  exact this
theorem and_192 (a : Nat) (h : a < 256) : a &&& 192 = a / 64 * 64 := by
  have := and_mask_byte ⟨2, by omega⟩ ⟨a, h⟩
  simp only [Fin.val_mk] at this
  norm_num at this
  exact this
theorem and_224 (a : Nat) (h : a < 256) : a &&& 224 = a / 32 * 32 := by
  have := and_mask_byte ⟨3, by omega⟩ ⟨a, h⟩
  simp only [Fin.val_mk] at this
  norm_num at this
  exact this
theorem and_240 (a : Nat) (h : a < 256) : a &&& 240 = a / 16 * 16 := by
  have := and_mask_byte ⟨4, by omega⟩ ⟨a, h⟩
  simp only [Fin.val_mk] at this
  norm_num at this
  exact this
theorem and_248 (a : Nat) (h : a < 256) : a &&& 248 = a / 8 * 8 := by
  have := and_mask_byte ⟨5, by omega⟩ ⟨a, h⟩
  simp only [Fin.val_mk] at this
  norm_num at this
  exact this
theorem and_252 (a : Nat) (h : a < 256) : a &&& 252 = a / 4 * 4 := by
  have := and_mask_byte ⟨6, by omega⟩ ⟨a, h⟩
  simp only [Fin.val_mk] at this
  norm_num at this
  exact this
theorem and_254 (a : Nat) (h : a < 256) : a &&& 254 = a / 2 * 2 := by
  have := and_mask_byte ⟨7, by omega⟩ ⟨a, h⟩
  simp only [Fin.val_mk] at this
  norm_num at this
  exact this
theorem and_255 (a : Nat) (h : a < 256) : a &&& 255 = a := by
  have := and_mask_byte ⟨8, by omega⟩ ⟨a, h⟩
  simp only [Fin.val_mk] at this
  norm_num at this
  exact this

theorem beVal_four (a b c d : Nat) :
    beVal [a, b, c, d] = a * 16777216 + b * 65536 + c * 256 + d := by
  simp [beVal]
  ring

theorem isBytes_four {a b c d : Nat} (h : isBytes [a, b, c, d]) :
    a < 256 ∧ b < 256 ∧ c < 256 ∧ d < 256 :=
  ⟨h a (by simp), h b (by simp), h c (by simp), h d (by simp)⟩

theorem length_four {l : List Nat} (h : l.length = 4) : ∃ a b c d, l = [a, b, c, d] := by
  match l, h with
  | [a, b, c, d], _ => exact ⟨a, b, c, d, rfl⟩

theorem CIDRMask_and_four (a b c d p : Nat) (hb : isBytes [a, b, c, d]) (hp : p ≤ 32) :
    List.zipWith (fun x y => x &&& y) [a, b, c, d] (CIDRMask p 32) =
      bytes4 (network4 (beVal [a, b, c, d]) p) := by
  obtain ⟨ha, hb', hc, hd⟩ := isBytes_four hb
  rw [beVal_four]
  interval_cases p <;>
    simp [CIDRMask, CIDRMask.loop, IPv4len, IPv6len, bytes4, network4, and_128, and_192,
      and_224, and_240, and_248, and_252, and_254, and_255, ha, hb', hc, hd] <;>
    omega

/-! ## Theorems: the loop of `IPBlock.GetIPs` on four-byte addresses -/

theorem CIDRMask_loop_length : ∀ (k n : Nat), (CIDRMask.loop k n).length = k := by
  intro k
  induction k with
  | zero => intro n; rfl
  | succ k ih =>
    intro n
    unfold CIDRMask.loop
    split <;> simp [ih]

theorem CIDRMask_length_32 (p : Nat) (hp : p ≤ 32) : (CIDRMask p 32).length = 4 := by
  have h : ¬ p > 32 := by omega
  simp [CIDRMask, IPv4len, IPv6len, h, CIDRMask_loop_length]

theorem CIDRMask_length_128 (p : Nat) (hp : p ≤ 128) : (CIDRMask p 128).length = 16 := by
  have h : ¬ p > 128 := by omega
  simp [CIDRMask, IPv4len, IPv6len, h, CIDRMask_loop_length]

theorem Contains_four (n0 n1 n2 n3 x0 x1 x2 x3 m0 m1 m2 m3 : Nat) :
    IPNet.Contains { IP := [n0, n1, n2, n3], Mask := [m0, m1, m2, m3] } [x0, x1, x2, x3] = true ↔
      (n0 &&& m0 = x0 &&& m0 ∧ n1 &&& m1 = x1 &&& m1 ∧ n2 &&& m2 = x2 &&& m2 ∧
        n3 &&& m3 = x3 &&& m3) := by
  simp [IPNet.Contains, networkNumberAndMask, IP.To4, IPv4len, IPv6len, List.range,
    List.range.loop]

theorem bytes4_beVal (v : Nat) (hv : v < 2 ^ 32) : beVal (bytes4 v) = v := by
  unfold bytes4
  rw [beVal_four]
  omega

theorem bytes4_isBytes (v : Nat) : isBytes (bytes4 v) := by
  intro x hx
  simp [bytes4] at hx
  omega

theorem bytes4_of_four (l : List Nat) (hl : l.length = 4) (hb : isBytes l) :
    l = bytes4 (beVal l) := by
  obtain ⟨a, b, c, d, rfl⟩ := length_four hl
  obtain ⟨ha, hb', hc, hd⟩ := isBytes_four hb
  rw [beVal_four]
  simp only [bytes4]
  congr 1
  · omega
  · congr 1
    · omega
    · congr 1
      · omega
      · congr 1
        omega

theorem beVal_four_lt (l : List Nat) (hl : l.length = 4) (hb : isBytes l) :
    beVal l < 2 ^ 32 := by
  have := beVal_lt l hb
  rw [hl] at this
  norm_num at this ⊢
  exact this

theorem network4_le (v p : Nat) : network4 v p ≤ v := Nat.div_mul_le_self _ _

theorem network4_eq_iff (u v p : Nat) :
    network4 u p = network4 v p ↔ u / 2 ^ (32 - p) = v / 2 ^ (32 - p) := by
  unfold network4
  constructor
  · intro h
    exact Nat.eq_of_mul_eq_mul_right (Nat.pos_pow_of_pos _ (by norm_num)) h
  · intro h
    rw [h]

theorem Contains_four_iff (nn x : List Nat) (p : Nat) (hnl : nn.length = 4)
    (hxl : x.length = 4) (hn : isBytes nn) (hx : isBytes x) (hp : p ≤ 32) :
    IPNet.Contains { IP := nn, Mask := CIDRMask p 32 } x = true ↔
      beVal x / 2 ^ (32 - p) = beVal nn / 2 ^ (32 - p) := by
  obtain ⟨n0, n1, n2, n3, rfl⟩ := length_four hnl
  obtain ⟨x0, x1, x2, x3, rfl⟩ := length_four hxl
  have e1 := CIDRMask_and_four n0 n1 n2 n3 p hn hp
  have e2 := CIDRMask_and_four x0 x1 x2 x3 p hx hp
  obtain ⟨m0, m1, m2, m3, hm⟩ := length_four (CIDRMask_length_32 p hp)
  rw [hm] at e1 e2 ⊢
  rw [Contains_four, ← network4_eq_iff]
  have l1 := Nat.lt_of_le_of_lt (network4_le (beVal [n0, n1, n2, n3]) p)
    (beVal_four_lt _ hnl hn)
  have l2 := Nat.lt_of_le_of_lt (network4_le (beVal [x0, x1, x2, x3]) p)
    (beVal_four_lt _ hxl hx)
  simp only [List.zipWith] at e1 e2
  constructor
  · rintro ⟨a0, a1, a2, a3⟩
    have : bytes4 (network4 (beVal [x0, x1, x2, x3]) p)
        = bytes4 (network4 (beVal [n0, n1, n2, n3]) p) := by
      rw [← e1, ← e2, a0, a1, a2, a3]
    have := congrArg beVal this
    rwa [bytes4_beVal _ l1, bytes4_beVal _ l2] at this
  · intro h
    rw [h] at e2
    have := e1.trans e2.symm
    simp at this
    exact this
theorem inc_four (x : List Nat) (hl : x.length = 4) (hb : isBytes x) :
    inc x = bytes4 ((beVal x + 1) % 2 ^ 32) := by
  have h1 := bytes4_of_four (inc x) (by rw [inc_length, hl]) (inc_isBytes x hb)
  rw [inc_beVal x hb, hl] at h1
  exact h1

set_option maxRecDepth 100000 in
theorem appendDecimal_nil : ∀ x : Fin 256, appendDecimal [] x.val = decimal x.val := by
  decide

theorem appendDecimal_eq (b : GoString) (x : Nat) (hx : x < 256) :
    appendDecimal b x = b ++ decimal x := by
  rw [← appendDecimal_nil ⟨x, hx⟩]
  simp only [appendDecimal]
  split_ifs <;> simp

theorem String_four (x : List Nat) (hl : x.length = 4) (hb : isBytes x) :
    IP.String x = dottedDecimal (beVal x) := by
  obtain ⟨a, b, c, d, rfl⟩ := length_four hl
  obtain ⟨ha, hb', hc, hd⟩ := isBytes_four hb
  have e : dottedDecimal (beVal [a, b, c, d])
      = decimal a ++ str "." ++ decimal b ++ str "." ++ decimal c ++ str "." ++ decimal d := by
    rw [beVal_four]
    unfold dottedDecimal
    have e0 : (a * 16777216 + b * 65536 + c * 256 + d) / 2 ^ 24 % 256 = a := by omega
    have e1 : (a * 16777216 + b * 65536 + c * 256 + d) / 2 ^ 16 % 256 = b := by omega
    have e2 : (a * 16777216 + b * 65536 + c * 256 + d) / 2 ^ 8 % 256 = c := by omega
    have e3 : (a * 16777216 + b * 65536 + c * 256 + d) % 256 = d := by omega
    rw [e0, e1, e2, e3]
  rw [e]
  simp [IP.String, IP.To4, IPv4len, IPv6len, string4, appendDecimal_eq, ha, hb', hc, hd]
theorem block_arith_inside (N p j : Nat) (hp : p ≤ 32) (hN : N < 2 ^ 32)
    (halign : N % 2 ^ (32 - p) = 0) (hj : j < 2 ^ (32 - p)) :
    N + j < 2 ^ 32 ∧ (N + j) / 2 ^ (32 - p) = N / 2 ^ (32 - p) := by
  have hH : 0 < 2 ^ (32 - p) := Nat.pos_pow_of_pos _ (by norm_num)
  have hpow : 2 ^ 32 = 2 ^ p * 2 ^ (32 - p) := by
    rw [← pow_add]; congr 1; omega
  obtain ⟨q, hq⟩ := Nat.dvd_of_mod_eq_zero halign
  have hq' : N = q * 2 ^ (32 - p) := by rw [hq, Nat.mul_comm]
  have hqlt : q < 2 ^ p := by
    by_contra hcon
    push_neg at hcon
    have := Nat.mul_le_mul_right (2 ^ (32 - p)) hcon
    omega
  constructor
  · have : (q + 1) * 2 ^ (32 - p) ≤ 2 ^ p * 2 ^ (32 - p) :=
      Nat.mul_le_mul_right _ hqlt
    have e : (q + 1) * 2 ^ (32 - p) = q * 2 ^ (32 - p) + 2 ^ (32 - p) := by ring
    omega
  · rw [hq', Nat.mul_comm q, Nat.mul_add_div hH, Nat.mul_div_cancel_left _ hH,
      Nat.div_eq_of_lt hj]
    rfl

theorem block_arith_after (N p : Nat) (hp1 : 1 ≤ p) (hp : p ≤ 32) (hN : N < 2 ^ 32)
    (halign : N % 2 ^ (32 - p) = 0) :
    (N + 2 ^ (32 - p)) % 2 ^ 32 / 2 ^ (32 - p) ≠ N / 2 ^ (32 - p) := by
  have hH : 0 < 2 ^ (32 - p) := Nat.pos_pow_of_pos _ (by norm_num)
  have hpow : 2 ^ 32 = 2 ^ p * 2 ^ (32 - p) := by
    rw [← pow_add]; congr 1; omega
  have h2p : 2 ≤ 2 ^ p := by
    calc 2 = 2 ^ 1 := by norm_num
      _ ≤ 2 ^ p := Nat.pow_le_pow_right (by norm_num) hp1
  obtain ⟨q, hq⟩ := Nat.dvd_of_mod_eq_zero halign
  have hq' : N = q * 2 ^ (32 - p) := by rw [hq, Nat.mul_comm]
  have hqlt : q < 2 ^ p := by
    by_contra hcon
    push_neg at hcon
    have := Nat.mul_le_mul_right (2 ^ (32 - p)) hcon
    omega
  have hNq : N / 2 ^ (32 - p) = q := by
    rw [hq', Nat.mul_div_cancel _ hH]
  have e : N + 2 ^ (32 - p) = (q + 1) * 2 ^ (32 - p) := by rw [hq']; ring
  rw [hNq, e]
  by_cases hc : q + 1 < 2 ^ p
  · have hlt : (q + 1) * 2 ^ (32 - p) < 2 ^ 32 := by
      rw [hpow]; exact Nat.mul_lt_mul_of_pos_right hc hH
    rw [Nat.mod_eq_of_lt hlt, Nat.mul_div_cancel _ hH]
    omega
  · have hc' : q + 1 = 2 ^ p := by omega
    rw [hc', ← hpow, Nat.mod_self, Nat.zero_div]
    omega

theorem bytes4_length (v : Nat) : (bytes4 v).length = 4 := rfl

theorem GetIPs_loop_four (nn : List Nat) (p : Nat) (hnl : nn.length = 4) (hn : isBytes nn)
    (hp1 : 1 ≤ p) (hp : p ≤ 32) (halign : beVal nn % 2 ^ (32 - p) = 0) :
    ∀ (r j : Nat), j + r = 2 ^ (32 - p) → ∀ fuel, r < fuel → ∀ acc,
      IPBlock.GetIPs.loop { IP := nn, Mask := CIDRMask p 32 } fuel
          (bytes4 ((beVal nn + j) % 2 ^ 32)) acc
        = some (acc ++ (List.range' j r).map (fun k => dottedDecimal (beVal nn + k))) := by
  have hN := beVal_four_lt nn hnl hn
  intro r
  induction r with
  | zero =>
    intro j hj fuel hf acc
    obtain ⟨f, rfl⟩ : ∃ f, fuel = f + 1 := ⟨fuel - 1, by omega⟩
    have hw : (beVal nn + j) % 2 ^ 32 < 2 ^ 32 := Nat.mod_lt _ (by norm_num)
    have hc : ¬ IPNet.Contains { IP := nn, Mask := CIDRMask p 32 }
        (bytes4 ((beVal nn + j) % 2 ^ 32)) = true := by
      rw [Contains_four_iff nn _ p hnl (bytes4_length _) hn (bytes4_isBytes _) hp,
        bytes4_beVal _ hw]
      have : j = 2 ^ (32 - p) := by omega
      rw [this]
      exact block_arith_after _ p hp1 hp hN halign
    rw [IPBlock.GetIPs.loop, if_neg hc]
    simp
  | succ r ih =>
    intro j hj fuel hf acc
    obtain ⟨f, rfl⟩ : ∃ f, fuel = f + 1 := ⟨fuel - 1, by omega⟩
    have hjlt : j < 2 ^ (32 - p) := by omega
    obtain ⟨hlt, hdiv⟩ := block_arith_inside _ p j hp hN halign hjlt
    rw [Nat.mod_eq_of_lt hlt]
    have hc : IPNet.Contains { IP := nn, Mask := CIDRMask p 32 }
        (bytes4 (beVal nn + j)) = true := by
      rw [Contains_four_iff nn _ p hnl (bytes4_length _) hn (bytes4_isBytes _) hp,
        bytes4_beVal _ hlt]
      exact hdiv
    rw [IPBlock.GetIPs.loop, if_pos hc, inc_four _ (bytes4_length _) (bytes4_isBytes _),
      String_four _ (bytes4_length _) (bytes4_isBytes _), bytes4_beVal _ hlt, Nat.add_assoc,
      ih (j + 1) (by omega) f (by omega)]
    simp [List.range'_succ]
/-! ## Theorems: what `net.ParseCIDR` returns -/

theorem isBytes_set (l : List Nat) (i v : Nat) (hl : isBytes l) (hv : v < 256) :
    isBytes (l.set i v) := by
  intro x hx
  rcases List.mem_or_eq_of_mem_set hx with h | h
  · exact hl x h
  · omega

theorem parseIPv4Fields_loop_shape (s : GoString) :
    ∀ (k i val pos digLen : Nat) (fields r : List Nat), fields.length = 4 → isBytes fields →
      parseIPv4Fields.loop s k i val pos digLen fields = some r → r.length = 4 ∧ isBytes r := by
  intro k
  induction k with
  | zero =>
    intro i val pos digLen fields r hl hb h
    simp only [parseIPv4Fields.loop] at h
    split at h
    · exact absurd h (by simp)
    · simp only [Option.some.injEq] at h
      subst h
      exact ⟨by simpa using hl, isBytes_set _ _ _ hb (Nat.mod_lt _ (by norm_num))⟩
  | succ k ih =>
    intro i val pos digLen fields r hl hb h
    simp only [parseIPv4Fields.loop] at h
    split at h
    · split at h
      · exact absurd h (by simp)
      · split at h
        · exact absurd h (by simp)
        · exact ih _ _ _ _ _ _ hl hb h
    · split at h
      · split at h
        · exact absurd h (by simp)
        · split at h
          · exact absurd h (by simp)
          · exact ih _ _ _ _ _ _ (by simpa using hl)
              (isBytes_set _ _ _ hb (Nat.mod_lt _ (by norm_num))) h
      · exact absurd h (by simp)

theorem parseIPv4Fields_shape (s : GoString) (r : List Nat) (h : parseIPv4Fields s = some r) :
    r.length = 4 ∧ isBytes r :=
  parseIPv4Fields_loop_shape s s.length 0 0 0 0 [0, 0, 0, 0] r rfl (by decide) h

theorem ParseAddr_scan_v4 (s : GoString) :
    ∀ (t : GoString) (b : List Nat), ParseAddr.scan s t = some (Addr.v4 b) →
      b.length = 4 ∧ isBytes b := by
  intro t
  induction t with
  | nil => intro b h; simp [ParseAddr.scan] at h
  | cons c rest ih =>
    intro b h
    simp only [ParseAddr.scan] at h
    split at h
    · cases hp : parseIPv4Fields s with
      | none => simp [hp] at h
      | some r =>
        simp [hp] at h
        subst h
        exact parseIPv4Fields_shape s r hp
    · split at h
      · cases hp : parseIPv6 s with
        | none => simp [hp] at h
        | some r => simp [hp] at h
      · split at h
        · exact absurd h (by simp)
        · exact ih b h

theorem ParseCIDR_shape (s : GoString) (ip : IP) (n : IPNet) (h : ParseCIDR s = .ok (ip, n)) :
    ∃ (i : Nat) (a : Addr) (p : Nat), IndexByteString s 47 = some i ∧
      ParseAddr (s.take i) = some a ∧ a.Zone = [] ∧ p ≤ a.BitLen ∧ ip = a.As16 ∧
      n.Mask = CIDRMask p a.BitLen ∧ n.IP = IP.Mask ip n.Mask := by
  unfold ParseCIDR at h
  simp only at h
  split at h
  · exact absurd h (by simp)
  · rename_i i hi
    split at h
    · exact absurd h (by simp)
    · rename_i a ha
      split at h
      · exact absurd h (by simp)
      · rename_i hz
        split at h
        · exact absurd h (by simp)
        · rename_i hd
          simp only [Except.ok.injEq, Prod.mk.injEq] at h
          obtain ⟨h1, h2⟩ := h
          subst h1 h2
          refine ⟨i, a, (dtoi (s.drop (i + 1))).1, hi, ha, by simpa using hz, ?_, rfl, rfl, rfl⟩
          push_neg at hd
          omega

theorem ParseCIDR_shape_v4 (s : GoString) (ip : IP) (n : IPNet)
    (h : ParseCIDR s = .ok (ip, n)) (hm : n.Mask.length = 4) :
    ∃ b : List Nat, b.length = 4 ∧ isBytes b ∧ ip = v4InV6Prefix ++ b ∧
      n.IP = List.zipWith (fun x y => x &&& y) b n.Mask ∧
      IP.Mask ip n.Mask = List.zipWith (fun x y => x &&& y) b n.Mask := by
  obtain ⟨i, a, p, _, ha, _, hp, hip, hmask, hnip⟩ := ParseCIDR_shape s ip n h
  cases a with
  | v6 b zone =>
    simp only [Addr.BitLen] at hp hmask
    rw [hmask, CIDRMask_length_128 p hp] at hm
    omega
  | v4 b =>
    obtain ⟨hbl, hbb⟩ := ParseAddr_scan_v4 _ _ b ha
    simp only [Addr.As16] at hip
    have hM : IP.Mask ip n.Mask = List.zipWith (fun x y => x &&& y) b n.Mask := by
      obtain ⟨b0, b1, b2, b3, rfl⟩ := length_four hbl
      obtain ⟨m0, m1, m2, m3, hm'⟩ := length_four hm
      rw [hip, hm']
      simp [IP.Mask, v4InV6Prefix, IPv4len, IPv6len]
    exact ⟨b, hbl, hbb, hip, hnip.trans hM, hM⟩
/-! ## Theorems: `IPBlock.GetIPs` on IPv4 blocks -/

theorem GetIPs_loop_mask_zero (nn : List Nat) (hnl : nn.length = 4) :
    ∀ (fuel : Nat) (x : List Nat) (acc : List GoString), x.length = 4 →
      IPBlock.GetIPs.loop { IP := nn, Mask := [0, 0, 0, 0] } fuel x acc = none := by
  obtain ⟨n0, n1, n2, n3, rfl⟩ := length_four hnl
  intro fuel
  induction fuel with
  | zero => intro x acc _; rfl
  | succ f ih =>
    intro x acc hx
    obtain ⟨x0, x1, x2, x3, rfl⟩ := length_four hx
    have hc : IPNet.Contains { IP := [n0, n1, n2, n3], Mask := [0, 0, 0, 0] }
        [x0, x1, x2, x3] = true := by
      rw [Contains_four]; simp
    rw [IPBlock.GetIPs.loop, if_pos hc]
    exact ih _ _ (by rw [inc_length]; rfl)

theorem iterate_inc_length (x : List Nat) (k : Nat) : (inc^[k] x).length = x.length := by
  induction k generalizing x with
  | zero => rfl
  | succ k ih => rw [Function.iterate_succ_apply, ih, inc_length]

theorem GetIPs_prefix_zero_helper (s : IPBlock) (ip : IP) (ipNet : IPNet)
    (hparse : ParseCIDR s = .ok (ip, ipNet)) (hmask : ipNet.Mask = CIDRMask 0 32) :
    (∀ k, ipNet.Contains (inc^[k] (IP.Mask ip ipNet.Mask)) = true) ∧
    (∀ fuel, IPBlock.GetIPs fuel s = none) := by
  have hm0 : CIDRMask 0 32 = [0, 0, 0, 0] := by decide
  rw [hm0] at hmask
  have hml : ipNet.Mask.length = 4 := by rw [hmask]; rfl
  obtain ⟨b, hbl, hbb, hip, hnip, hstart⟩ := ParseCIDR_shape_v4 s ip ipNet hparse hml
  have hsl : (IP.Mask ip ipNet.Mask).length = 4 := by
    rw [hstart, hmask]
    obtain ⟨b0, b1, b2, b3, rfl⟩ := length_four hbl
    rfl
  have hnl : ipNet.IP.length = 4 := by rw [hnip, ← hstart]; exact hsl
  have hnet : ipNet = { IP := ipNet.IP, Mask := [0, 0, 0, 0] } := by
    cases ipNet
    simp only at hmask
    rw [hmask]
  constructor
  · intro k
    have hl : (inc^[k] (IP.Mask ip ipNet.Mask)).length = 4 := by
      rw [iterate_inc_length, hsl]
    obtain ⟨x0, x1, x2, x3, hx⟩ := length_four hl
    obtain ⟨n0, n1, n2, n3, hn⟩ := length_four hnl
    rw [hx, hnet, hn, Contains_four]
    simp
  · intro fuel
    unfold IPBlock.GetIPs
    rw [hparse]
    simp only
    rw [hnet, GetIPs_loop_mask_zero _ hnl fuel _ [] (by rw [← hnet]; exact hsl)]
    rfl
/-! ## Theorems: `IPBlock.GetIPs` on a string that is not a CIDR expression -/

theorem dtoi_loop_ok : ∀ (rest : GoString) (n i n' i' : Nat),
    dtoi.loop rest n i = (n', i', true) → i' = i + rest.length →
      (∀ c ∈ rest, 48 ≤ c ∧ c ≤ 57) ∧
      n' = rest.foldl (fun n c => n * 10 + (c - 48)) n ∧ i' ≠ 0 := by
  intro rest
  induction rest with
  | nil =>
    intro n i n' i' h hi
    simp only [dtoi.loop] at h
    split at h
    · simp at h
    · simp only [Prod.mk.injEq, and_true] at h
      obtain ⟨h1, h2⟩ := h
      subst h1 h2
      exact ⟨by simp, rfl, by assumption⟩
  | cons c rest ih =>
    intro n i n' i' h hi
    simp only [dtoi.loop] at h
    split at h
    · rename_i hc
      split at h
      · simp at h
      · obtain ⟨a1, a2, a3⟩ := ih _ _ _ _ h (by simp at hi; omega)
        refine ⟨?_, ?_, a3⟩
        · intro x hx
          rcases List.mem_cons.mp hx with e | e
          · subst e; exact hc
          · exact a1 x e
        · simpa using a2
    · split at h
      · simp at h
      · simp only [Prod.mk.injEq, and_true] at h
        obtain ⟨_, h2⟩ := h
        simp at hi
        omega

theorem foldl_digits_le (rest : GoString) :
    ∀ n : Nat, n ≤ rest.foldl (fun n c => n * 10 + (c - 48)) n := by
  induction rest with
  | nil => intro n; exact le_refl _
  | cons c rest ih =>
    intro n
    simp only [List.foldl_cons]
    exact le_trans (by omega) (ih _)

theorem dtoi_loop_digits : ∀ (rest : GoString) (n i : Nat),
    (∀ c ∈ rest, 48 ≤ c ∧ c ≤ 57) → rest.foldl (fun n c => n * 10 + (c - 48)) n < big →
    i + rest.length ≠ 0 →
      dtoi.loop rest n i = (rest.foldl (fun n c => n * 10 + (c - 48)) n, i + rest.length, true) := by
  intro rest
  induction rest with
  | nil =>
    intro n i _ _ hi
    simp only [dtoi.loop]
    rw [if_neg (by simpa using hi)]
    rfl
  | cons c rest ih =>
    intro n i hd hv hi
    have hc := hd c (by simp)
    simp only [List.foldl_cons] at hv
    have hle := foldl_digits_le rest (n * 10 + (c - 48))
    simp only [dtoi.loop]
    rw [if_pos hc, if_neg (by omega), ih _ _ (fun x hx => hd x (by simp [hx])) hv (by omega)]
    simp only [List.foldl_cons, List.length_cons]
    congr 2
    omega

theorem ParseCIDR_error (s : GoString) (e : Error) (h : ParseCIDR s = .error e) :
    e = Error.ParseError (str "CIDR address") s := by
  unfold ParseCIDR at h
  simp only at h
  split at h
  · simp only [Except.error.injEq] at h; exact h.symm
  · split at h
    · simp only [Except.error.injEq] at h; exact h.symm
    · split at h
      · simp only [Except.error.injEq] at h; exact h.symm
      · split at h
        · simp only [Except.error.injEq] at h; exact h.symm
        · simp at h

theorem ParseCIDR_ok_iff (s : GoString) : (∃ r, ParseCIDR s = .ok r) ↔ ValidCIDR s := by
  constructor
  · rintro ⟨r, h⟩
    unfold ParseCIDR at h
    simp only at h
    split at h
    · simp at h
    · rename_i i hi
      split at h
      · simp at h
      · rename_i a ha
        split at h
        · simp at h
        · rename_i hz
          split at h
          · simp at h
          · rename_i hd
            push_neg at hd
            obtain ⟨d1, d2, d3⟩ := hd
            have hd1 : (dtoi (s.drop (i + 1))).2.2 = true := by simpa using d1
            have hl : dtoi.loop (s.drop (i + 1)) 0 0
                = ((dtoi (s.drop (i + 1))).1, (dtoi (s.drop (i + 1))).2.1, true) := by
              rw [← hd1]; rfl
            obtain ⟨a1, a2, a3⟩ := dtoi_loop_ok _ _ _ _ _ hl (by rw [d2]; simp)
            refine ⟨i, hi, a, ha, by simpa using hz, ⟨?_, a1⟩, ?_⟩
            · intro hnil
              rw [d2, hnil] at a3
              exact a3 rfl
            · unfold decimalValue
              rw [← a2]
              omega
  · rintro ⟨i, hi, a, ha, hz, ⟨hne, hdig⟩, hval⟩
    have hi : IndexByteString s 47 = some i := hi
    have ha : ParseAddr (s.take i) = some a := ha
    unfold ParseCIDR
    simp only [hi, ha, hz]
    have hw : a.BitLen < big := by
      cases a <;> simp [Addr.BitLen, big]
    have hloop := dtoi_loop_digits (s.drop (i + 1)) 0 0 hdig
      (lt_of_le_of_lt hval hw)
      (by
        have : (s.drop (i + 1)).length ≠ 0 := fun h0 => hne (List.length_eq_zero.mp h0)
        omega)
    have hdt : dtoi (s.drop (i + 1))
        = (decimalValue (s.drop (i + 1)), (s.drop (i + 1)).length, true) := by
      unfold dtoi decimalValue
      rw [hloop]
      simp
    rw [hdt]
    simp only [ne_eq, not_true_eq_false, if_false]
    have hle : ¬ decimalValue (s.drop (i + 1)) > a.BitLen := by omega
    simp [hle]

set_option maxRecDepth 100000 in
theorem decimal_shape : ∀ x : Fin 256,
    decimal x.val =
      if x.val < 10 then [48 + x.val]
      else if x.val < 100 then [48 + x.val / 10, 48 + x.val % 10]
      else [48 + x.val / 100, 48 + x.val / 10 % 10, 48 + x.val % 10] := by
  decide

theorem getD_append_add (pre l : List Nat) (j : Nat) :
    (pre ++ l).getD (pre.length + j) 0 = l.getD j 0 := by
  simp [List.getD_eq_getElem?_getD, List.getElem?_append_right]

theorem loop_digit (s : GoString) (k i val pos digLen c : Nat) (fields : List Nat)
    (hc : s.getD i 0 = c) (h1 : 48 ≤ c) (h2 : c ≤ 57) (h3 : ¬ (digLen = 1 ∧ val = 0))
    (h4 : val * 10 + c - 48 ≤ 255) :
    parseIPv4Fields.loop s (k + 1) i val pos digLen fields =
      parseIPv4Fields.loop s k (i + 1) (val * 10 + c - 48) pos (digLen + 1) fields := by
  rw [parseIPv4Fields.loop]
  simp only [hc]
  rw [if_pos ⟨h1, h2⟩, if_neg h3, if_neg (by omega)]

theorem loop_dot (s : GoString) (k i val pos digLen : Nat) (fields : List Nat)
    (hc : s.getD i 0 = 46) (h1 : i ≠ 0) (h2 : i ≠ s.length - 1) (h3 : s.getD (i - 1) 0 ≠ 46)
    (h4 : pos ≠ 3) :
    parseIPv4Fields.loop s (k + 1) i val pos digLen fields =
      parseIPv4Fields.loop s k (i + 1) 0 (pos + 1) 0 (fields.set pos (val % 256)) := by
  rw [parseIPv4Fields.loop]
  simp only [hc]
  rw [if_neg (by omega), if_pos trivial, if_neg (by push_neg; exact ⟨h1, h2, h3⟩), if_neg h4]

theorem loop_octet (s pre post : GoString) (x k pos : Nat) (fields : List Nat) (hx : x < 256)
    (hs : s = pre ++ decimal x ++ post) :
    parseIPv4Fields.loop s ((decimal x).length + k) pre.length 0 pos 0 fields =
      parseIPv4Fields.loop s k (pre.length + (decimal x).length) x pos
        (decimal x).length fields := by
  subst hs
  have hs := decimal_shape ⟨x, hx⟩
  simp only at hs
  have hg : ∀ j, (pre ++ decimal x ++ post).getD (pre.length + j) 0
      = (decimal x ++ post).getD j 0 := by
    intro j
    rw [List.append_assoc]
    exact getD_append_add _ _ _
  have hg0 := hg 0
  have hg1 := hg 1
  have hg2 := hg 2
  rw [Nat.add_zero] at hg0
  by_cases h10 : x < 10
  · rw [if_pos h10] at hs
    rw [hs] at hg0 ⊢
    simp only [List.length_singleton, List.singleton_append, List.cons_append,
      List.nil_append] at hg0 ⊢
    rw [Nat.add_comm 1 k, loop_digit _ k _ 0 pos 0 (48 + x) fields hg0 (by omega) (by omega)
      (by omega) (by omega)]
    congr 1
    omega
  · rw [if_neg h10] at hs
    by_cases h100 : x < 100
    · rw [if_pos h100] at hs
      rw [hs] at hg0 hg1 ⊢
      simp only [List.length_cons, List.length_singleton, List.length_nil, List.cons_append,
        List.nil_append] at hg0 hg1 ⊢
      have e : 0 + 1 + 1 + k = (k + 1) + 1 := by omega
      rw [e, loop_digit _ (k + 1) _ 0 pos 0 (48 + x / 10) fields hg0 (by omega) (by omega)
        (by omega) (by omega),
        loop_digit _ k _ _ pos 1 (48 + x % 10) fields hg1 (by omega) (by omega)
        (by omega) (by omega)]
      congr 1
      omega
    · rw [if_neg h100] at hs
      rw [hs] at hg0 hg1 hg2 ⊢
      simp only [List.length_cons, List.length_singleton, List.length_nil, List.cons_append,
        List.nil_append] at hg0 hg1 hg2 ⊢
      have e : 0 + 1 + 1 + 1 + k = ((k + 1) + 1) + 1 := by omega
      rw [e, loop_digit _ (k + 2) _ 0 pos 0 (48 + x / 100) fields hg0 (by omega) (by omega)
        (by omega) (by omega),
        loop_digit _ (k + 1) _ _ pos 1 (48 + x / 10 % 10) fields hg1 (by omega) (by omega)
        (by omega) (by omega),
        loop_digit _ k _ _ pos 2 (48 + x % 10) fields hg2 (by omega) (by omega)
        (by omega) (by omega)]
      congr 1
      omega

set_option maxRecDepth 100000 in
theorem decimal_digits : ∀ x : Fin 256, ∀ c ∈ decimal x.val, 48 ≤ c ∧ c ≤ 57 := by
  decide

theorem decimal_length_pos (x : Nat) (hx : x < 256) : 0 < (decimal x).length := by
  have hs := decimal_shape ⟨x, hx⟩
  simp only at hs
  rw [hs]
  split_ifs <;> simp

theorem loop_octet_dot (s pre rest : GoString) (x pos : Nat) (fields : List Nat)
    (hx : x < 256) (hs : s = pre ++ decimal x ++ 46 :: rest) (hrest : rest ≠ [])
    (hpos : pos < 3) :
    parseIPv4Fields.loop s ((decimal x).length + (rest.length + 1)) pre.length 0 pos 0 fields =
      parseIPv4Fields.loop s rest.length (pre.length + (decimal x).length + 1) 0 (pos + 1) 0
        (fields.set pos x) := by
  have hl := decimal_length_pos x hx
  have hrl : 0 < rest.length := List.length_pos.mpr hrest
  rw [loop_octet s pre (46 :: rest) x (rest.length + 1) pos fields hx hs]
  have hlen : s.length = pre.length + (decimal x).length + (rest.length + 1) := by
    rw [hs]; simp [List.length_append]; omega
  have hdot : s.getD (pre.length + (decimal x).length) 0 = 46 := by
    rw [hs, ← List.length_append]
    have := getD_append_add (pre ++ decimal x) (46 :: rest) 0
    simpa using this
  have hprev : s.getD (pre.length + (decimal x).length - 1) 0 ≠ 46 := by
    have e : pre.length + (decimal x).length - 1 = pre.length + ((decimal x).length - 1) := by
      omega
    rw [e, hs, List.append_assoc, getD_append_add]
    have hlt : (decimal x).length - 1 < (decimal x).length := by omega
    have hmem : (decimal x ++ 46 :: rest).getD ((decimal x).length - 1) 0 ∈ decimal x := by
      rw [List.getD_eq_getElem?_getD, List.getElem?_append_left hlt,
        List.getElem?_eq_getElem hlt]
      exact List.getElem_mem _
    have := decimal_digits ⟨x, hx⟩ _ hmem
    omega
  rw [loop_dot s rest.length _ x pos _ fields hdot (by omega) (by omega) hprev (by omega),
    Nat.mod_eq_of_lt hx]

theorem parseIPv4Fields_dottedQuad (a b c d : Nat) (hb : isBytes [a, b, c, d]) :
    parseIPv4Fields (dottedQuad a b c d) = some [a, b, c, d] := by
  obtain ⟨ha, hb', hc, hd⟩ := isBytes_four hb
  have ld := decimal_length_pos d hd
  have nd : decimal d ≠ [] := List.length_pos.mp ld
  unfold parseIPv4Fields
  generalize hs : dottedQuad a b c d = s
  have hs' : s = decimal a ++ 46 :: (decimal b ++ 46 :: (decimal c ++ 46 :: decimal d)) :=
    hs.symm
  have t1 : parseIPv4Fields.loop s s.length 0 0 0 0 [0, 0, 0, 0] =
      parseIPv4Fields.loop s
        ((decimal b).length + (decimal c).length + (decimal d).length + 2)
        ((decimal a).length + 1) 0 1 0 [a, 0, 0, 0] := by
    have h := loop_octet_dot s [] (decimal b ++ 46 :: (decimal c ++ 46 :: decimal d)) a 0
      [0, 0, 0, 0] ha (by rw [hs']; simp) (by simp) (by omega)
    have e1 : (decimal a).length +
        ((decimal b ++ 46 :: (decimal c ++ 46 :: decimal d)).length + 1) = s.length := by
      rw [hs']; simp [List.length_append]
    have e2 : (decimal b ++ 46 :: (decimal c ++ 46 :: decimal d)).length =
        (decimal b).length + (decimal c).length + (decimal d).length + 2 := by
      simp [List.length_append]; omega
    rw [e1, e2] at h
    simpa using h
  have t2 : parseIPv4Fields.loop s
        ((decimal b).length + (decimal c).length + (decimal d).length + 2)
        ((decimal a).length + 1) 0 1 0 [a, 0, 0, 0] =
      parseIPv4Fields.loop s ((decimal c).length + (decimal d).length + 1)
        ((decimal a).length + (decimal b).length + 2) 0 2 0 [a, b, 0, 0] := by
    have h := loop_octet_dot s (decimal a ++ [46]) (decimal c ++ 46 :: decimal d) b 1
      [a, 0, 0, 0] hb' (by rw [hs']; simp) (by simp) (by omega)
    have e1 : (decimal b).length + ((decimal c ++ 46 :: decimal d).length + 1) =
        (decimal b).length + (decimal c).length + (decimal d).length + 2 := by
      simp [List.length_append]; omega
    have e2 : (decimal c ++ 46 :: decimal d).length =
        (decimal c).length + (decimal d).length + 1 := by
      simp [List.length_append]; omega
    have e3 : (decimal a ++ [46]).length = (decimal a).length + 1 := by simp
    have e4 : (decimal a).length + 1 + (decimal b).length + 1 =
        (decimal a).length + (decimal b).length + 2 := by omega
    rw [e1, e2, e3, e4] at h
    simpa using h
  have t3 : parseIPv4Fields.loop s ((decimal c).length + (decimal d).length + 1)
        ((decimal a).length + (decimal b).length + 2) 0 2 0 [a, b, 0, 0] =
      parseIPv4Fields.loop s (decimal d).length
        ((decimal a).length + (decimal b).length + (decimal c).length + 3) 0 3 0
        [a, b, c, 0] := by
    have h := loop_octet_dot s (decimal a ++ 46 :: (decimal b ++ [46])) (decimal d) c 2
      [a, b, 0, 0] hc (by rw [hs']; simp) nd (by omega)
    have e1 : (decimal c).length + ((decimal d).length + 1) =
        (decimal c).length + (decimal d).length + 1 := by omega
    have e3 : (decimal a ++ 46 :: (decimal b ++ [46])).length =
        (decimal a).length + (decimal b).length + 2 := by
      simp [List.length_append]; omega
    have e4 : (decimal a).length + (decimal b).length + 2 + (decimal c).length + 1 =
        (decimal a).length + (decimal b).length + (decimal c).length + 3 := by omega
    rw [e1, e3, e4] at h
    simpa using h
  have t4 : parseIPv4Fields.loop s (decimal d).length
        ((decimal a).length + (decimal b).length + (decimal c).length + 3) 0 3 0
        [a, b, c, 0] = some [a, b, c, d] := by
    have h := loop_octet s (decimal a ++ 46 :: (decimal b ++ 46 :: (decimal c ++ [46]))) []
      d 0 3 [a, b, c, 0] hd (by rw [hs']; simp)
    have e3 : (decimal a ++ 46 :: (decimal b ++ 46 :: (decimal c ++ [46]))).length =
        (decimal a).length + (decimal b).length + (decimal c).length + 3 := by
      simp [List.length_append]; omega
    rw [e3, Nat.add_zero] at h
    rw [h]
    simp [parseIPv4Fields.loop, Nat.mod_eq_of_lt hd]
  rw [t1, t2, t3, t4]
theorem ParseAddr_scan_digits (s : GoString) :
    ∀ (ds rest : GoString), (∀ c ∈ ds, 48 ≤ c ∧ c ≤ 57) →
      ParseAddr.scan s (ds ++ 46 :: rest) = (parseIPv4Fields s).map Addr.v4 := by
  intro ds
  induction ds with
  | nil => intro rest _; simp [ParseAddr.scan]
  | cons c ds ih =>
    intro rest h
    have hc := h c (by simp)
    rw [List.cons_append, ParseAddr.scan, if_neg (by omega), if_neg (by omega),
      if_neg (by omega)]
    exact ih rest (fun x hx => h x (by simp [hx]))

theorem ParseAddr_dottedQuad (a b c d : Nat) (hb : isBytes [a, b, c, d]) :
    ParseAddr (dottedQuad a b c d) = some (Addr.v4 [a, b, c, d]) := by
  obtain ⟨ha, _, _, _⟩ := isBytes_four hb
  unfold ParseAddr
  have h := ParseAddr_scan_digits (dottedQuad a b c d) (decimal a)
    (decimal b ++ 46 :: (decimal c ++ 46 :: decimal d)) (decimal_digits ⟨a, ha⟩)
  rw [parseIPv4Fields_dottedQuad a b c d hb] at h
  exact h

theorem IndexByteString_append (l rest : GoString) (c : Nat) (h : c ∉ l) :
    IndexByteString (l ++ c :: rest) c = some l.length := by
  induction l with
  | nil => simp [IndexByteString]
  | cons x l ih =>
    have hx : x ≠ c := fun e => h (by simp [e])
    have hl : c ∉ l := fun e => h (by simp [e])
    simp [IndexByteString, hx, ih hl]

theorem dottedQuad_no_slash (a b c d : Nat) (hb : isBytes [a, b, c, d]) :
    47 ∉ dottedQuad a b c d := by
  obtain ⟨ha, hb', hc, hd⟩ := isBytes_four hb
  have da := decimal_digits ⟨a, ha⟩
  have db := decimal_digits ⟨b, hb'⟩
  have dc := decimal_digits ⟨c, hc⟩
  have dd := decimal_digits ⟨d, hd⟩
  simp only at da db dc dd
  intro h
  simp only [dottedQuad, List.mem_append, List.mem_cons] at h
  rcases h with h | h | h | h | h | h | h
  · have := da _ h; omega
  · omega
  · have := db _ h; omega
  · omega
  · have := dc _ h; omega
  · omega
  · have := dd _ h; omega

set_option maxRecDepth 100000 in
theorem dtoi_decimal : ∀ p : Fin 129,
    dtoi (decimal p.val) = (p.val, (decimal p.val).length, true) := by
  decide

/-- The canonical CIDR string `a.b.c.d/p` is read by `ParseCIDR` as the address `a.b.c.d`
with the mask of `p` ones out of 32. -/
theorem ParseCIDR_cidr4 (a b c d p : Nat) (hb : isBytes [a, b, c, d]) (hp : p ≤ 32) :
    ParseCIDR (cidr4 a b c d p) =
      .ok (v4InV6Prefix ++ [a, b, c, d],
        { IP := IP.Mask (v4InV6Prefix ++ [a, b, c, d]) (CIDRMask p 32),
          Mask := CIDRMask p 32 }) := by
  unfold ParseCIDR cidr4
  have hi := IndexByteString_append (dottedQuad a b c d) (decimal p) 47
    (dottedQuad_no_slash a b c d hb)
  have ht : (dottedQuad a b c d ++ 47 :: decimal p).take (dottedQuad a b c d).length
      = dottedQuad a b c d := by simp
  have hd : (dottedQuad a b c d ++ 47 :: decimal p).drop ((dottedQuad a b c d).length + 1)
      = decimal p := by simp
  have hdt := dtoi_decimal ⟨p, by omega⟩
  simp only at hdt
  simp only [hi, ht, hd, ParseAddr_dottedQuad a b c d hb, hdt, Addr.Zone, Addr.BitLen,
    Addr.As16]
  simp
  omega

/-! ## Theorems: the claims about `IPBlock.GetIPs` -/

/-- C6: for every string that is not a valid CIDR expression (no `/` separator, an
address part that does not parse, a prefix length that is not a decimal number within the
address width), `IPBlock.GetIPs` returns, whatever the fuel, an empty list and the parse error. -/
theorem GetIPs_invalid_CIDR (fuel : Nat) (s : IPBlock) (h : ¬ ValidCIDR s) :
    IPBlock.GetIPs fuel s = some ([], some (Error.ParseError (str "CIDR address") s)) := by
  unfold IPBlock.GetIPs
  cases hp : ParseCIDR s with
  | error e =>
    rw [ParseCIDR_error s e hp]
  | ok r => exact absurd ((ParseCIDR_ok_iff s).mp ⟨r, hp⟩) h

/-- C6 at `not-a-cidr`, and at a prefix length beyond the width, an address part that does
not parse and a prefix length that is not a number. -/
theorem GetIPs_invalid_CIDR_witness :
    ¬ ValidCIDR (str "not-a-cidr") ∧
    IPBlock.GetIPs 100 (str "not-a-cidr") =
      some ([], some (Error.ParseError (str "CIDR address") (str "not-a-cidr"))) ∧
    IPBlock.GetIPs 100 (str "192.168.1.0/33") =
      some ([], some (Error.ParseError (str "CIDR address") (str "192.168.1.0/33"))) ∧
    IPBlock.GetIPs 100 (str "192.168.1/24") =
      some ([], some (Error.ParseError (str "CIDR address") (str "192.168.1/24"))) ∧
    IPBlock.GetIPs 100 (str "192.168.1.0/3x") =
      some ([], some (Error.ParseError (str "CIDR address") (str "192.168.1.0/3x"))) :=
  ⟨by decide, GetIPs_invalid_CIDR 100 (str "not-a-cidr") (by decide), by decide, by decide,
    by decide⟩

theorem GetIPs_ipv4_of_parse (s : IPBlock) (a b c d p : Nat) (ipNet : IPNet)
    (hparse : ParseCIDR s = .ok (v4InV6Prefix ++ [a, b, c, d], ipNet))
    (hmask : ipNet.Mask = CIDRMask p 32) (hp1 : 1 ≤ p) (hp : p ≤ 32) :
    isBytes [a, b, c, d] ∧
    ipNet.IP = bytes4 (network4 (beVal [a, b, c, d]) p) ∧
    (∀ fuel, 2 ^ (32 - p) < fuel →
      IPBlock.GetIPs fuel s = some ((List.range (2 ^ (32 - p))).map
        (fun k => dottedDecimal (network4 (beVal [a, b, c, d]) p + k)), none)) ∧
    ipNet.Contains (bytes4 (network4 (beVal [a, b, c, d]) p + (2 ^ (32 - p) - 1))) = true ∧
    ipNet.Contains (inc (bytes4 (network4 (beVal [a, b, c, d]) p + (2 ^ (32 - p) - 1))))
      = false := by
  have hml : ipNet.Mask.length = 4 := by rw [hmask, CIDRMask_length_32 p hp]
  obtain ⟨b', hbl, hbb, hip, hnip, hstart⟩ := ParseCIDR_shape_v4 s _ ipNet hparse hml
  have hb' : b' = [a, b, c, d] := (List.append_cancel_left hip).symm
  subst hb'
  rw [hmask, CIDRMask_and_four a b c d p hbb hp] at hnip hstart
  set N := network4 (beVal [a, b, c, d]) p with hN
  have hV := beVal_four_lt [a, b, c, d] rfl hbb
  have hNlt : N < 2 ^ 32 := Nat.lt_of_le_of_lt (network4_le _ _) hV
  have hnet : ipNet = { IP := bytes4 N, Mask := CIDRMask p 32 } := by
    cases ipNet
    simp only at hnip hmask
    rw [hnip, hmask]
  have hval : beVal (bytes4 N) = N := bytes4_beVal N hNlt
  have halign : beVal (bytes4 N) % 2 ^ (32 - p) = 0 := by
    rw [hval, hN]
    exact Nat.mul_mod_left _ _
  have hH : 0 < 2 ^ (32 - p) := Nat.pos_pow_of_pos _ (by norm_num)
  refine ⟨hbb, hnip, ?_, ?_, ?_⟩
  · intro fuel hfuel
    have loop := GetIPs_loop_four (bytes4 N) p (bytes4_length N) (bytes4_isBytes N) hp1 hp
      halign (2 ^ (32 - p)) 0 (by omega) fuel hfuel []
    rw [hval, Nat.add_zero, Nat.mod_eq_of_lt hNlt] at loop
    unfold IPBlock.GetIPs
    rw [hparse]
    simp only
    rw [hmask, hstart, hnet, loop]
    simp [List.range_eq_range']
  · have hin := block_arith_inside N p (2 ^ (32 - p) - 1) hp hNlt (by rw [← hval]; exact halign)
      (by omega)
    rw [hnet, Contains_four_iff _ _ p (bytes4_length N) (bytes4_length _) (bytes4_isBytes N)
      (bytes4_isBytes _) hp, bytes4_beVal _ hin.1, hval]
    exact hin.2
  · have hin := block_arith_inside N p (2 ^ (32 - p) - 1) hp hNlt (by rw [← hval]; exact halign)
      (by omega)
    have hout := block_arith_after N p hp1 hp hNlt (by rw [← hval]; exact halign)
    rw [inc_four _ (bytes4_length _) (bytes4_isBytes _), bytes4_beVal _ hin.1]
    have e : N + (2 ^ (32 - p) - 1) + 1 = N + 2 ^ (32 - p) := by omega
    rw [e]
    cases hc : ipNet.Contains (bytes4 ((N + 2 ^ (32 - p)) % 2 ^ 32)) with
    | false => rfl
    | true =>
      rw [hnet, Contains_four_iff _ _ p (bytes4_length N) (bytes4_length _) (bytes4_isBytes N)
        (bytes4_isBytes _) hp, bytes4_beVal _ (Nat.mod_lt _ (by norm_num)), hval] at hc
      exact absurd hc hout


/-- C8: for all bytes `a b c d` and every `p` with `1 ≤ p ≤ 32`, whatever the host bits
are: the string `a.b.c.d/p` is read by `ParseCIDR` as the address `a.b.c.d` in the network
`N/p`, `N` being the value of `a.b.c.d` with its low `32 - p` bits cleared; for it, and for
every string that `ParseCIDR` reads so, the loop of `IPBlock.GetIPs` ends after `2^(32-p) + 1`
tests of its condition and the result is the list of the dotted-decimal renderings of
`N, N+1, ..., N + 2^(32-p) - 1`, without error; the last address is in the network and its
successor under `inc` is not. -/
theorem GetIPs_ipv4_block (a b c d p : Nat) (hb : isBytes [a, b, c, d]) (hp1 : 1 ≤ p)
    (hp : p ≤ 32) :
    ParseCIDR (cidr4 a b c d p) =
      .ok (v4InV6Prefix ++ [a, b, c, d],
        { IP := bytes4 (network4 (beVal [a, b, c, d]) p), Mask := CIDRMask p 32 }) ∧
    (∀ fuel, 2 ^ (32 - p) < fuel →
      IPBlock.GetIPs fuel (cidr4 a b c d p) = some ((List.range (2 ^ (32 - p))).map
        (fun k => dottedDecimal (network4 (beVal [a, b, c, d]) p + k)), none)) ∧
    (∀ (s : IPBlock) (ipNet : IPNet),
      ParseCIDR s = .ok (v4InV6Prefix ++ [a, b, c, d], ipNet) → ipNet.Mask = CIDRMask p 32 →
        (∀ fuel, 2 ^ (32 - p) < fuel →
          IPBlock.GetIPs fuel s = some ((List.range (2 ^ (32 - p))).map
            (fun k => dottedDecimal (network4 (beVal [a, b, c, d]) p + k)), none)) ∧
        ipNet.Contains (bytes4 (network4 (beVal [a, b, c, d]) p + (2 ^ (32 - p) - 1)))
          = true ∧
        ipNet.Contains (inc (bytes4 (network4 (beVal [a, b, c, d]) p + (2 ^ (32 - p) - 1))))
          = false) := by
  have hparse := ParseCIDR_cidr4 a b c d p hb hp
  have hm : IP.Mask (v4InV6Prefix ++ [a, b, c, d]) (CIDRMask p 32)
      = bytes4 (network4 (beVal [a, b, c, d]) p) := by
    have h := (GetIPs_ipv4_of_parse _ a b c d p _ hparse rfl hp1 hp).2.1
    exact h
  rw [hm] at hparse
  refine ⟨hparse, (GetIPs_ipv4_of_parse _ a b c d p _ hparse rfl hp1 hp).2.2.1, ?_⟩
  intro s ipNet hs hmask
  exact (GetIPs_ipv4_of_parse s a b c d p ipNet hs hmask hp1 hp).2.2

/-- C8 at `192.168.1.77/30`, whose host bits are not zero, and the block
`255.255.255.254/31`, after whose last address `inc` wraps to `0.0.0.0`. -/
theorem GetIPs_ipv4_block_witness :
    cidr4 192 168 1 77 30 = str "192.168.1.77/30" ∧
    IPBlock.GetIPs 5 (cidr4 192 168 1 77 30) = some ((List.range (2 ^ (32 - 30))).map
      (fun k => dottedDecimal (network4 (beVal [192, 168, 1, 77]) 30 + k)), none) ∧
    (List.range (2 ^ (32 - 30))).map
        (fun k => dottedDecimal (network4 (beVal [192, 168, 1, 77]) 30 + k)) =
      [str "192.168.1.76", str "192.168.1.77", str "192.168.1.78", str "192.168.1.79"] ∧
    IPBlock.GetIPs 5 (str "192.168.1.77/030") =
      some ([str "192.168.1.76", str "192.168.1.77", str "192.168.1.78", str "192.168.1.79"],
        none) ∧
    IPBlock.GetIPs 3 (str "255.255.255.254/31") =
      some ([str "255.255.255.254", str "255.255.255.255"], none) ∧
    inc [255, 255, 255, 255] = [0, 0, 0, 0] :=
  ⟨by decide,
    (GetIPs_ipv4_block 192 168 1 77 30 (by decide) (by decide) (by decide)).2.1 5 (by decide),
    by decide, by decide, by decide, by decide⟩

/-- C9: for all bytes `a b c d`, the IPv4 block `a.b.c.d/0` of prefix length 0, and every
string that `ParseCIDR` reads as `a.b.c.d` with the mask of no ones out of 32: every address
reached from the network address by any number of `inc` steps is contained in the network,
`inc` wraps `255.255.255.255` to `0.0.0.0`, which the network contains, and no amount of
fuel lets `IPBlock.GetIPs` return. -/
theorem GetIPs_prefix_zero_never_returns (a b c d : Nat) (hb : isBytes [a, b, c, d]) :
    ParseCIDR (cidr4 a b c d 0) =
      .ok (v4InV6Prefix ++ [a, b, c, d], { IP := [0, 0, 0, 0], Mask := [0, 0, 0, 0] }) ∧
    (∀ k, IPNet.Contains { IP := [0, 0, 0, 0], Mask := [0, 0, 0, 0] }
      (inc^[k] [0, 0, 0, 0]) = true) ∧
    (∀ fuel, IPBlock.GetIPs fuel (cidr4 a b c d 0) = none) ∧
    inc [255, 255, 255, 255] = [0, 0, 0, 0] ∧
    (∀ (s : IPBlock) (ipNet : IPNet),
      ParseCIDR s = .ok (v4InV6Prefix ++ [a, b, c, d], ipNet) → ipNet.Mask = CIDRMask 0 32 →
        (∀ k, ipNet.Contains
          (inc^[k] (IP.Mask (v4InV6Prefix ++ [a, b, c, d]) ipNet.Mask)) = true) ∧
        (∀ fuel, IPBlock.GetIPs fuel s = none)) := by
  obtain ⟨ha, hb', hc, hd⟩ := isBytes_four hb
  have hparse := ParseCIDR_cidr4 a b c d 0 hb (by omega)
  have hm0 : CIDRMask 0 32 = [0, 0, 0, 0] := by decide
  have hmask : IP.Mask (v4InV6Prefix ++ [a, b, c, d]) [0, 0, 0, 0] = [0, 0, 0, 0] := by
    simp [IP.Mask, v4InV6Prefix, IPv4len, IPv6len]
  rw [hm0, hmask] at hparse
  have h := GetIPs_prefix_zero_helper _ _ _ hparse (by rw [hm0])
  refine ⟨hparse, ?_, h.2, by decide, ?_⟩
  · have h1 := h.1
    simp only [hmask] at h1
    exact h1
  · intro s ipNet hs hmask'
    exact GetIPs_prefix_zero_helper s _ ipNet hs hmask'

/-- C9 at `10.1.2.3/0`. -/
theorem GetIPs_prefix_zero_never_returns_witness :
    cidr4 10 1 2 3 0 = str "10.1.2.3/0" ∧
    (∀ fuel, IPBlock.GetIPs fuel (cidr4 10 1 2 3 0) = none) ∧
    IPNet.Contains { IP := [0, 0, 0, 0], Mask := [0, 0, 0, 0] }
      (inc^[3] [0, 0, 0, 0]) = true :=
  ⟨by decide, (GetIPs_prefix_zero_never_returns 10 1 2 3 (by decide)).2.2.1,
    (GetIPs_prefix_zero_never_returns 10 1 2 3 (by decide)).2.1 3⟩

/-- C1 at the valid CIDR string `0.0.0.0/0`: `ParseCIDR` accepts it, and `IPBlock.GetIPs` does not
return its `2^32` addresses, whatever the fuel; at `192.168.1.0/30` it returns the four
addresses of the block. -/
theorem GetIPs_whole_space_never_returns :
    ValidCIDR (str "0.0.0.0/0") ∧
    (∀ fuel, IPBlock.GetIPs fuel (str "0.0.0.0/0") = none) ∧
    IPBlock.GetIPs 5 (str "192.168.1.0/30") =
      some ([str "192.168.1.0", str "192.168.1.1", str "192.168.1.2", str "192.168.1.3"],
        none) :=
  have hp : ParseCIDR (str "0.0.0.0/0") =
      .ok (v4InV6Prefix ++ [0, 0, 0, 0], { IP := [0, 0, 0, 0], Mask := [0, 0, 0, 0] }) := rfl
  ⟨by decide, (GetIPs_prefix_zero_helper _ _ _ hp rfl).2, by decide⟩

end Govh
